import Mathlib

/-!
Verification of the TIAC threshold-issued anonymous-credential crypto core
(src/crypto of the Evoting repository) against its specification.

Embedding conventions.

The scheme works in three cyclic groups G1, G2, GT of the same prime order p
(PBC type-A pairing), plus the scalar field Zr = Z/pZ.  We fix (unmodeled)
generators B1 of G1 and B2 of G2 and represent every group element by its
discrete logarithm with respect to the corresponding base (base e(B1,B2) for
GT).  Since dlog is a group isomorphism from (Z/pZ, +) onto each group:

  * element_mul   on G1/G2/GT  becomes  + on ZMod p;
  * element_pow_zn (elem^scalar) becomes * on ZMod p;
  * element_set1 (identity)    becomes  0;
  * pairing_apply e(a, b)      becomes  a * b  (bilinearity);
  * element_cmp == 0           becomes  equality in ZMod p.

The params fields g1, g2, h1 are the dlogs of the three published generators
(arbitrary values: no theorem below fixes them).  Canonical serialization of a
group element (elementToStringG1 and friends: fixed-width lowercase hex of
element_to_bytes) is injective, so a hash of a concatenation of serialized
elements is modeled as an abstract function of the list of their dlogs:

  * hashZr : List (ZMod p) -> ZMod p   models hashToZr (SHA-512 mod p);
  * hashG1 : ZMod p -> ZMod p          models hashToG1 (element_from_hash of
                                        the serialized input element).

Randomness (element_random) is passed in as explicit arguments.  mpz_t
arithmetic mod the group order is ZMod p arithmetic; exact integer division
(mpz_tdiv_q / mpz_divexact) is division on ℤ (the Lean `/` on ℤ agrees with
mpz_tdiv_q on the nonnegative operands reachable here, and mpz_divexact has
defined behavior only when the division is exact, where every convention
coincides).  C++ functions that throw are modeled with Except String.
-/

namespace TIAC

/-- Pairing context (setup.h TIACParams): dlogs of the published generators
g1, h1 in G1 and g2 in G2.  The pairing handle and the prime order p are
carried by the type parameter. -/
structure TIACParams (p : ℕ) where
  g1 : ZMod p
  g2 : ZMod p
  h1 : ZMod p
  deriving Repr, DecidableEq

/-- Equality test on Except values, needed so that concrete pipeline runs can
be settled by decide. -/
instance {ε α : Type} [DecidableEq ε] [DecidableEq α] : DecidableEq (Except ε α) := fun x y =>
  match x, y with
  | .ok a, .ok b =>
      if h : a = b then .isTrue (by rw [h]) else .isFalse (fun hh => h (Except.ok.inj hh))
  | .error a, .error b =>
      if h : a = b then .isTrue (by rw [h]) else .isFalse (fun hh => h (Except.error.inj hh))
  | .ok _, .error _ => .isFalse (fun hh => Except.noConfusion hh)
  | .error _, .ok _ => .isFalse (fun hh => Except.noConfusion hh)

/-! ## Lagrange coefficients (aggregate.cpp) -/

/-- aggregate.cpp setFraction: computes numerator/denominator mod p by finding
the least k < denominator with (p mod denominator)*k + numerator ≡ 0
(mod denominator) and returning the integer quotient (p*k + numerator) /
denominator (element_set_mpz then reduces mod p).  When gcd(p, denominator)
is not 1 the C++ prints an error and sets the output to 0. -/
def setFraction (p : ℕ) (num : ℤ) (den : ℕ) : ZMod p :=
  if Nat.gcd p den = 1 then
    match (List.range den).find? (fun k => ((((p % den) * k : ℕ) : ℤ) + num) % (den : ℤ) == 0) with
    | some k => (((p * k : ℕ) + num) / (den : ℤ) : ℤ)
    | none => 0
  else 0

/-- aggregate.cpp computeLagrangeCoefficient: shifts every admin ID up by one,
then looks the coefficient up in the hard-coded table for the 2- and 3-element
shifted ID subsets of the points 1..5 with an explicit entry; every other input
(including every list of length 1 or of length at least 4, and 2- or
3-element sets without an entry) falls through to element_set1, i.e.
coefficient 1.
Subtractions such as p-1 are mpz integer operations reduced mod p at
element_set_mpz, hence computed in ℤ and cast into ZMod p. -/
def computeLagrangeCoefficient (p : ℕ) (allIDs : List ℤ) (idx : ℕ) : ZMod p :=
  if allIDs.isEmpty then 1
  else
    let shiftedIDs := allIDs.map (· + 1)
    let cur := shiftedIDs.getD idx 0
    if shiftedIDs.length = 2 then
      if shiftedIDs.contains 1 && shiftedIDs.contains 2 then
        if cur = 1 then 2 else (((p : ℤ) - 1 : ℤ) : ZMod p)
      else if shiftedIDs.contains 1 && shiftedIDs.contains 3 then
        -- mpz_tdiv_q_ui by 2 (truncated division on nonnegative values)
        if cur = 1 then ((((p : ℤ) + 3) / 2 : ℤ) : ZMod p)
        else ((((p : ℤ) - 1) / 2 : ℤ) : ZMod p)
      else if shiftedIDs.contains 2 && shiftedIDs.contains 3 then
        if cur = 2 then 3 else (((p : ℤ) - 2 : ℤ) : ZMod p)
      else 1
    else if shiftedIDs.length = 3 then
      if shiftedIDs.contains 1 && shiftedIDs.contains 2 && shiftedIDs.contains 3 then
        if cur = 1 then 3
        else if cur = 2 then (((p : ℤ) - 3 : ℤ) : ZMod p)
        else 1
      else if shiftedIDs.contains 1 && shiftedIDs.contains 2 && shiftedIDs.contains 4 then
        if cur = 1 then setFraction p 8 3
        else if cur = 2 then (((p : ℤ) - 2 : ℤ) : ZMod p)
        else setFraction p 1 3
      else if shiftedIDs.contains 1 && shiftedIDs.contains 2 && shiftedIDs.contains 5 then
        if cur = 1 then ((((p : ℤ) + 5) / 2 : ℤ) : ZMod p)
        else if cur = 2 then
          if p % 3 = 2 then ((((p : ℤ) - 5) / 3 : ℤ) : ZMod p)
          else (((2 * (p : ℤ) - 5) / 3 : ℤ) : ZMod p)
        else
          if p % 6 = 5 then ((((p : ℤ) + 1) / 6 : ℤ) : ZMod p)
          else (((5 * (p : ℤ) + 1) / 6 : ℤ) : ZMod p)
      else if shiftedIDs.contains 1 && shiftedIDs.contains 3 && shiftedIDs.contains 4 then
        if cur = 1 then 2
        else if cur = 3 then (((p : ℤ) - 2 : ℤ) : ZMod p)
        else 1
      else if shiftedIDs.contains 1 && shiftedIDs.contains 3 && shiftedIDs.contains 5 then
        if cur = 1 then setFraction p 15 8
        else if cur = 3 then setFraction p (-5) 4
        else setFraction p 3 8
      else if shiftedIDs.contains 1 && shiftedIDs.contains 4 && shiftedIDs.contains 5 then
        if cur = 1 then
          if p % 3 = 2 then (((2 * (p : ℤ) + 5) / 3 : ℤ) : ZMod p)
          else ((((p : ℤ) + 5) / 3 : ℤ) : ZMod p)
        else if cur = 4 then
          if p % 3 = 2 then ((((p : ℤ) - 5) / 3 : ℤ) : ZMod p)
          else (((2 * (p : ℤ) - 5) / 3 : ℤ) : ZMod p)
        else 1
      else if shiftedIDs.contains 2 && shiftedIDs.contains 3 && shiftedIDs.contains 4 then
        if cur = 2 then 6
        else if cur = 3 then (((p : ℤ) - 8 : ℤ) : ZMod p)
        else 3
      else if shiftedIDs.contains 2 && shiftedIDs.contains 3 && shiftedIDs.contains 5 then
        if cur = 2 then 5
        else if cur = 3 then (((p : ℤ) - 5 : ℤ) : ZMod p)
        else 1
      else if shiftedIDs.contains 2 && shiftedIDs.contains 4 && shiftedIDs.contains 5 then
        if cur = 2 then setFraction p 10 3
        else if cur = 4 then (((p : ℤ) - 5 : ℤ) : ZMod p)
        else setFraction p 8 3
      else if shiftedIDs.contains 3 && shiftedIDs.contains 4 && shiftedIDs.contains 5 then
        if cur = 3 then 10
        else if cur = 4 then (((p : ℤ) - 15 : ℤ) : ZMod p)
        else 6
      else 1
    else 1

/-- Modelled from the spec (section 4.7 Lagrange coefficient policy): the
closed-form Lagrange basis coefficient at x = 0 over evaluation points xs,
lambda_idx = prod over j ≠ idx of (-x_j) * (x_idx - x_j)⁻¹ mod p.  This is
the normative formula the spec mandates, kept separate from the source
function computeLagrangeCoefficient so the two can be compared. -/
def specLagrangeCoefficient (p : ℕ) (xs : List ℤ) (idx : ℕ) : ZMod p :=
  let xk := xs.getD idx 0
  (xs.eraseIdx idx).foldl
    (fun acc xj => acc * (((-xj : ℤ) : ZMod p) * (((xk - xj : ℤ) : ZMod p))⁻¹)) 1

/-- The 2- and 3-element shifted ID subsets with an explicit entry in the
hard-coded coefficient table of computeLagrangeCoefficient, each written as
its sorted list of shifted evaluation points. -/
def coveredShiftedSets : List (List ℤ) :=
  [[1, 2], [1, 3], [2, 3],
   [1, 2, 3], [1, 2, 4], [1, 2, 5], [1, 3, 4], [1, 3, 5], [1, 4, 5],
   [2, 3, 4], [2, 3, 5], [2, 4, 5], [3, 4, 5]]

/-- The same tabulated index sets, as the sorted lists of (0-based) admin IDs
whose shift by one gives coveredShiftedSets. -/
def coveredAdminLists : List (List ℕ) :=
  [[0, 1], [0, 2], [1, 2],
   [0, 1, 2], [0, 1, 3], [0, 1, 4], [0, 2, 3], [0, 2, 4], [0, 3, 4],
   [1, 2, 3], [1, 2, 4], [1, 3, 4], [2, 3, 4]]

/-! ## Polynomials and keys (keygen.cpp, keygen_parallel_backup.cpp) -/

/-- keygen.cpp evalPolynomial_ptr / keygen_parallel_backup.cpp evalPolynomial:
result starts at 0, xPow at 1; each step adds poly[k] * xPow and multiplies
xPow by the evaluation point, everything mod p. -/
def evalPolynomial (poly : List (ZMod p)) (x : ZMod p) : ZMod p :=
  (poly.foldl (fun (st : ZMod p × ZMod p) c => (st.1 + c * st.2, st.2 * x)) (0, 1)).1

/-- keygen.h MasterVerKey (dlogs). -/
structure MasterVerKey (p : ℕ) where
  alpha2 : ZMod p
  beta2 : ZMod p
  beta1 : ZMod p
  deriving Repr, DecidableEq

/-- keygen.h EAKey (dlogs): signing scalars sgk1, sgk2 and verification
elements vkm1, vkm2 in G2 and vkm3 in G1. -/
structure EAKey (p : ℕ) where
  sgk1 : ZMod p
  sgk2 : ZMod p
  vkm1 : ZMod p
  vkm2 : ZMod p
  vkm3 : ZMod p
  deriving Repr, DecidableEq

instance : Inhabited (EAKey p) := ⟨⟨0, 0, 0, 0, 0⟩⟩

/-- keygen.h KeyGenOutput. -/
structure KeyGenOutput (p : ℕ) where
  mvk : MasterVerKey p
  eaKeys : List (EAKey p)
  deriving Repr, DecidableEq

/-- keygen_parallel_backup.cpp keygen (the key generation the pipeline in
main_parallel_backup.cpp uses): vPoly and wPoly are the two random coefficient
vectors (randomPolynomial fills exactly t = length coefficients); the master
secrets are the evaluations at 0, the key of EA index m-1 holds the
evaluations at m for m = 1..ne. -/
def keygen (params : TIACParams p) (vPoly wPoly : List (ZMod p)) (ne : ℕ) : KeyGenOutput p :=
  let x := evalPolynomial vPoly 0
  let y := evalPolynomial wPoly 0
  { mvk := ⟨params.g2 * x, params.g2 * y, params.g1 * y⟩,
    eaKeys := (List.range ne).map (fun i =>
      let xm := evalPolynomial vPoly ((i + 1 : ℕ) : ZMod p)
      let ym := evalPolynomial wPoly ((i + 1 : ℕ) : ZMod p)
      ⟨xm, ym, params.g2 * xm, params.g2 * ym, params.g1 * ym⟩) }

/-! ## Pedersen DKG share verification (keygen.cpp, dkg_cli.cpp) -/

/-- keygen.h EACommitments (dlogs): V_x[j] = g2^(F[j]), V_y[j] = g2^(G[j]),
V_y_prime[j] = g1^(G[j]). -/
structure EACommitments (p : ℕ) where
  V_x : List (ZMod p)
  V_y : List (ZMod p)
  V_y_prime : List (ZMod p)
  deriving Repr, DecidableEq

/-- keygen.cpp generateCommitments: commits to every coefficient of the two
polynomials (the C++ loops over j < polynomials.size, the common length of
both coefficient arrays). -/
def generateCommitments (params : TIACParams p) (F_coeffs G_coeffs : List (ZMod p)) :
    EACommitments p :=
  { V_x := F_coeffs.map (fun c => params.g2 * c),
    V_y := G_coeffs.map (fun c => params.g2 * c),
    V_y_prime := G_coeffs.map (fun c => params.g1 * c) }

/-- One side of the verifyShare products: prod over j of V[j]^(i^j), i.e. in
dlog form the sum of V[j] * i^j (element_set1 starts the product at the
identity). -/
def commitPowProduct (V : List (ZMod p)) (i : ℕ) : ZMod p :=
  (V.foldl (fun (st : ZMod p × ℕ) v => (st.1 + v * ((i : ZMod p)) ^ st.2, st.2 + 1)) (0, 0)).1

/-- keygen.cpp verifyShare: checks g2^(F_l(i)) against the V_x product,
g2^(G_l(i)) against the V_y product and g1^(G_l(i)) against the V_y_prime
product; all three must hold. -/
def verifyShare (params : TIACParams p) (F_l_i G_l_i : ZMod p)
    (commitments : EACommitments p) (i : ℕ) : Bool :=
  (params.g2 * F_l_i == commitPowProduct commitments.V_x i) &&
  (params.g2 * G_l_i == commitPowProduct commitments.V_y i) &&
  (params.g1 * G_l_i == commitPowProduct commitments.V_y_prime i)

/-- dkg_cli.cpp compute_signing_key: sums the received share pairs mod p. -/
def compute_signing_key (shares : List (ZMod p × ZMod p)) : ZMod p × ZMod p :=
  shares.foldl (fun acc sh => (acc.1 + sh.1, acc.2 + sh.2)) (0, 0)

/-- dkg_cli.cpp compute_verification_keys: multiplies, over every qualified
trustee q and every j < threshold (note: threshold, not threshold + 1 as in
every other subcommand), the commitment powers V[q][j]^(my_index^j).  In dlog
form this is a double sum over the first `threshold` entries of each
commitment list. -/
def compute_verification_keys (threshold my_index : ℕ)
    (all_commitments : List (EACommitments p)) : ZMod p × ZMod p × ZMod p :=
  all_commitments.foldl
    (fun acc comm =>
      ((List.range threshold).foldl
          (fun a j => (a.1 + comm.V_x.getD j 0 * ((my_index : ZMod p)) ^ j,
                       a.2.1 + comm.V_y.getD j 0 * ((my_index : ZMod p)) ^ j,
                       a.2.2 + comm.V_y_prime.getD j 0 * ((my_index : ZMod p)) ^ j)) acc))
    (0, 0, 0)

/-! ## Prepare blind sign (prepareblindsign.cpp) -/

/-- prepareblindsign.h KoRProof: the issuance knowledge-of-representation
proof (c, s1, s2, s3) in Zr. -/
structure KoRProof (p : ℕ) where
  c : ZMod p
  s1 : ZMod p
  s2 : ZMod p
  s3 : ZMod p
  deriving Repr, DecidableEq

/-- prepareblindsign.h PrepareBlindSignOutput.  com_str is the canonical
serialization of com; serialization is modeled as the identity on dlogs, so
the field carries the dlog of com. -/
structure PrepareBlindSignOutput (p : ℕ) where
  comi : ZMod p
  h : ZMod p
  com : ZMod p
  pi_s : KoRProof p
  o : ZMod p
  com_str : ZMod p
  deriving Repr, DecidableEq

/-- prepareblindsign.cpp computeKoR: commitments comi_prime = g1^r1 h1^r2 and
com_prime = g1^r3 h^r2, challenge c = hashZr(g1, h, h1, com, com_prime, comi,
comi_prime), responses s_i = r_i - c * secret_i mod p. -/
def computeKoR (params : TIACParams p) (hashZr : List (ZMod p) → ZMod p)
    (com comi : ZMod p) (g1e h1e he : ZMod p) (oi did o : ZMod p)
    (r1 r2 r3 : ZMod p) : KoRProof p :=
  let comi_prime := g1e * r1 + h1e * r2
  let com_prime := g1e * r3 + he * r2
  let c := hashZr [g1e, he, h1e, com, com_prime, comi, comi_prime]
  ⟨c, r1 - c * oi, r2 - c * did, r3 - c * o⟩

/-- prepareblindsign.cpp prepareBlindSign: comi = g1^oi h1^did,
h = hashToG1(comi), com = g1^o h^did, plus the issuance KoR proof.  The
random scalars oi, o, r1, r2, r3 (element_random) are explicit arguments, and
the DID string is already reduced to its scalar did = hex2int(didStr) mod p
(didStringToMpz). -/
def prepareBlindSign (params : TIACParams p) (hashG1 : ZMod p → ZMod p)
    (hashZr : List (ZMod p) → ZMod p) (did : ZMod p)
    (oi o r1 r2 r3 : ZMod p) : PrepareBlindSignOutput p :=
  let comi := params.g1 * oi + params.h1 * did
  let h := hashG1 comi
  let com := params.g1 * o + h * did
  { comi := comi, h := h, com := com,
    pi_s := computeKoR params hashZr com comi params.g1 params.h1 h oi did o r1 r2 r3,
    o := o, com_str := com }

/-! ## Blind sign (blindsign.cpp) -/

/-- blindsign.h BlindSignature: partial blind signature (h, cm) plus routing
tags. -/
structure BlindSignature (p : ℕ) where
  h : ZMod p
  cm : ZMod p
  adminId : ℤ
  voterId : ℤ
  deriving Repr, DecidableEq

/-- blindsign.cpp CheckKoR: recomputes comi_double = g1^s1 h1^s2 comi^c and
com_double = g1^s3 h^s2 com^c, rehashes and accepts iff the challenge
matches. -/
def CheckKoR (params : TIACParams p) (hashZr : List (ZMod p) → ZMod p)
    (com comi h : ZMod p) (pi_s : KoRProof p) : Bool :=
  let comi_double := params.g1 * pi_s.s1 + params.h1 * pi_s.s2 + comi * pi_s.c
  let com_double := params.g1 * pi_s.s3 + h * pi_s.s2 + com * pi_s.c
  let cprime := hashZr [params.g1, h, params.h1, com, com_double, comi, comi_double]
  cprime == pi_s.c

/-- blindsign.cpp blindSign: rejects when CheckKoR fails or when
hashToG1(comi) differs from the handed-over h; otherwise outputs
cm = h^xm * com^ym with the same h. -/
def blindSign (params : TIACParams p) (hashG1 : ZMod p → ZMod p)
    (hashZr : List (ZMod p) → ZMod p) (bsOut : PrepareBlindSignOutput p)
    (xm ym : ZMod p) (adminId voterId : ℤ) : Except String (BlindSignature p) :=
  if CheckKoR params hashZr bsOut.com bsOut.comi bsOut.h bsOut.pi_s then
    if hashG1 bsOut.comi == bsOut.h then
      .ok { h := bsOut.h, cm := bsOut.h * xm + bsOut.com * ym,
            adminId := adminId, voterId := voterId }
    else .error "blindSign: Hash(comi) != h => hata"
  else .error "blindSign: KoR check failed"

/-! ## Unblind (unblindsign.cpp) -/

/-- unblindsign.h UnblindSignature (debug strings omitted). -/
structure UnblindSignature (p : ℕ) where
  h : ZMod p
  s_m : ZMod p
  deriving Repr, DecidableEq

instance : Inhabited (UnblindSignature p) := ⟨⟨0, 0⟩⟩

/-- unblindsign.cpp unblindSign: checks hashToG1(comi) against bsOut.h,
computes s_m = cm * vkm3^(-o), pairing-checks
e(h, vkm1 * vkm2^did) = e(s_m, g2) and returns (h, s_m); each failed check
throws. -/
def unblindSign (params : TIACParams p) (hashG1 : ZMod p → ZMod p)
    (bsOut : PrepareBlindSignOutput p) (blindSig : BlindSignature p)
    (eaKey : EAKey p) (did : ZMod p) : Except String (UnblindSignature p) :=
  let h := blindSig.h
  if hashG1 bsOut.comi == bsOut.h then
    let s_m := blindSig.cm + eaKey.vkm3 * (-bsOut.o)
    if h * (eaKey.vkm1 + eaKey.vkm2 * did) == s_m * params.g2 then
      .ok ⟨h, s_m⟩
    else .error "unblindSign: Pairing check failed"
  else .error "unblindSign: Hash(comi) != h"

/-! ## Aggregation (aggregate.cpp) -/

/-- aggregate.h AggregateSignature. -/
structure AggregateSignature (p : ℕ) where
  h : ZMod p
  s : ZMod p
  deriving Repr, DecidableEq

/-- aggregate.cpp aggregateSign: copies the h of the first partial signature
(the C++ indexes element 0 unconditionally, so the empty list is outside the
modeled domain), then multiplies s_m(i)^(lambda_i) over all provided partials
with lambda_i = computeLagrangeCoefficient over the list of admin IDs.  There
is no count check and no error path. -/
def aggregateSign (partials : List (ℤ × UnblindSignature p)) : AggregateSignature p :=
  let allIDs := partials.map Prod.fst
  { h := (partials.headD (0, default)).2.h,
    s := (partials.foldl
      (fun (st : ZMod p × ℕ) pr =>
        (st.1 + computeLagrangeCoefficient p allIDs st.2 * pr.2.s_m, st.2 + 1)) (0, 0)).1 }

/-! ## Prove credential (provecredential.cpp) -/

/-- provecredential.h ProveCredentialSigmaRnd (debug string omitted). -/
structure ProveCredentialSigmaRnd (p : ℕ) where
  h : ZMod p
  s : ZMod p
  deriving Repr, DecidableEq

/-- provecredential.h ProveCredentialOutput (proof_v string omitted). -/
structure ProveCredentialOutput (p : ℕ) where
  sigmaRnd : ProveCredentialSigmaRnd p
  k : ZMod p
  r : ZMod p
  c : ZMod p
  s1 : ZMod p
  s2 : ZMod p
  s3 : ZMod p
  deriving Repr, DecidableEq

/-- provecredential.cpp proveCredential: h_dbl = h^r_prime,
s_dbl = s^r_prime * h_dbl^r, k = alpha2 * beta2^did * g2^r.  The output
fields c, s1, s2, s3 are element_init_Zr-initialized (value 0 in PBC) and
never assigned; r is copied out.  The random r and r_prime are explicit
arguments and did is the already-reduced DID scalar. -/
def proveCredential (params : TIACParams p) (aggSig : AggregateSignature p)
    (mvk : MasterVerKey p) (did : ZMod p) (o : ZMod p)
    (r r_prime : ZMod p) : ProveCredentialOutput p :=
  let h_dbl := aggSig.h * r_prime
  let s_dbl := aggSig.s * r_prime + h_dbl * r
  let k := mvk.alpha2 + mvk.beta2 * did + params.g2 * r
  { sigmaRnd := ⟨h_dbl, s_dbl⟩, k := k, r := r, c := 0, s1 := 0, s2 := 0, s3 := 0 }

/-! ## Presentation KoR (kor.cpp) and verification (pairinginverify.cpp,
checkkorverify.cpp) -/

/-- kor.h KnowledgeOfRepProof (proof_string omitted). -/
structure KnowledgeOfRepProof (p : ℕ) where
  c : ZMod p
  s1 : ZMod p
  s2 : ZMod p
  s3 : ZMod p
  deriving Repr, DecidableEq

/-- kor.cpp generateKoRProof: k_prime = g2^r1 * alpha2 * beta2^r2,
com_prime = g1^r3 * h^r2, challenge c = hashZr(g1, g2, h, com, com_prime, k,
k_prime), responses s1 = r1 - c*r, s2 = r2 - c*did, s3 = r3 - c*o.  The h
argument is whatever G1 element the caller passes (main_parallel_backup.cpp
passes the aggregate h). -/
def generateKoRProof (params : TIACParams p) (hashZr : List (ZMod p) → ZMod p)
    (h k r com alpha2 beta2 : ZMod p) (did o : ZMod p)
    (r1 r2 r3 : ZMod p) : KnowledgeOfRepProof p :=
  let k_prime := params.g2 * r1 + alpha2 + beta2 * r2
  let com_prime := params.g1 * r3 + h * r2
  let c := hashZr [params.g1, params.g2, h, com, com_prime, k, k_prime]
  ⟨c, r1 - c * r, r2 - c * did, r3 - c * o⟩

/-- main_parallel_backup.cpp lines 250-266: the caller attaches the separately
generated presentation KoR to the proveCredential output by overwriting its
c, s1, s2, s3 fields. -/
def attachKoR (pOut : ProveCredentialOutput p) (kor : KnowledgeOfRepProof p) :
    ProveCredentialOutput p :=
  { pOut with c := kor.c, s1 := kor.s1, s2 := kor.s2, s3 := kor.s3 }

/-- pairinginverify.cpp pairingCheck: e(h_dbl, k) == e(s_dbl, g2). -/
def pairingCheck (params : TIACParams p) (pOut : ProveCredentialOutput p) : Bool :=
  pOut.sigmaRnd.h * pOut.k == pOut.sigmaRnd.s * params.g2

/-- checkkorverify.cpp checkKoRVerify: recomputes
k_prime_prime = g2^s1 * alpha2^(1-c) * k^c * beta2^s2 and
com_prime_prime = g1^s3 * h_agg^s2 * com^c, rehashes over the supplied
h_agg and accepts iff the challenge matches.  com_str is the decoded com
element (stringToElementG1 of the canonical serialization, i.e. the dlog
itself). -/
def checkKoRVerify (params : TIACParams p) (hashZr : List (ZMod p) → ZMod p)
    (proveRes : ProveCredentialOutput p) (mvk : MasterVerKey p)
    (com_str : ZMod p) (h_agg : ZMod p) : Bool :=
  let one_minus_c := 1 - proveRes.c
  let k_prime_prime := params.g2 * proveRes.s1 + mvk.alpha2 * one_minus_c +
    proveRes.k * proveRes.c + mvk.beta2 * proveRes.s2
  let com_prime_prime := params.g1 * proveRes.s3 + h_agg * proveRes.s2 +
    com_str * proveRes.c
  let c_prime := hashZr [params.g1, params.g2, h_agg, com_str,
    com_prime_prime, proveRes.k, k_prime_prime]
  c_prime == proveRes.c

/-! ## The honest end-to-end pipeline of main_parallel_backup.cpp -/

/-- The per-admin loop of main_parallel_backup.cpp for one voter: for each
admin ID the EA key is looked up, blindSign produces the partial blind
signature from that key, and unblindSign recovers the partial signature;
the admin ID is kept paired for aggregation. -/
def runPartials (params : TIACParams p) (hashG1 : ZMod p → ZMod p)
    (hashZr : List (ZMod p) → ZMod p) (prep : PrepareBlindSignOutput p)
    (eaKeys : List (EAKey p)) (did : ZMod p) (voterId : ℤ) :
    List ℕ → Except String (List (ℤ × UnblindSignature p))
  | [] => .ok []
  | aId :: rest => do
      let key := eaKeys.getD aId default
      let bs ← blindSign params hashG1 hashZr prep key.sgk1 key.sgk2 (aId : ℤ) voterId
      let ub ← unblindSign params hashG1 prep bs key did
      let tail ← runPartials params hashG1 hashZr prep eaKeys did voterId rest
      .ok (((aId : ℤ), ub) :: tail)

/-- One voter of the main_parallel_backup.cpp pipeline: keygen, prepare,
blindSign and unblindSign with each listed admin, aggregateSign,
proveCredential, the separate generateKoRProof call over the aggregate h
(attached to the credential), and finally the two verifier checks.  Returns
the pair (pairingCheck result, checkKoRVerify result). -/
def honestIssuanceRun (params : TIACParams p) (hashG1 : ZMod p → ZMod p)
    (hashZr : List (ZMod p) → ZMod p) (vPoly wPoly : List (ZMod p)) (ne : ℕ)
    (did oi o r1 r2 r3 r r_prime rho1 rho2 rho3 : ZMod p)
    (adminIds : List ℕ) (voterId : ℤ) : Except String (Bool × Bool) :=
  let keyOut := keygen params vPoly wPoly ne
  let prep := prepareBlindSign params hashG1 hashZr did oi o r1 r2 r3
  match runPartials params hashG1 hashZr prep keyOut.eaKeys did voterId adminIds with
  | .error e => .error e
  | .ok sigsWithAdmins =>
    let aggSig := aggregateSign sigsWithAdmins
    let pOut := proveCredential params aggSig keyOut.mvk did prep.o r r_prime
    let korProof := generateKoRProof params hashZr aggSig.h pOut.k pOut.r prep.com_str
      keyOut.mvk.alpha2 keyOut.mvk.beta2 did prep.o rho1 rho2 rho3
    let cred := attachKoR pOut korProof
    .ok (pairingCheck params cred,
         checkKoRVerify params hashZr cred keyOut.mvk prep.com_str aggSig.h)

/-! ## Helper lemmas -/

/-- Horner recursion for the evalPolynomial fold: the fold starting from
accumulator (a, w) returns a + w times the fold from (0, 1). -/
theorem evalPolynomial_foldl_aux (x : ZMod p) (l : List (ZMod p)) :
    ∀ a w : ZMod p,
      ((l.foldl (fun (st : ZMod p × ZMod p) c => (st.1 + c * st.2, st.2 * x)) (a, w)).1 =
        a + w * (l.foldl (fun (st : ZMod p × ZMod p) c => (st.1 + c * st.2, st.2 * x)) (0, 1)).1) := by
  induction l with
  | nil => intro a w; simp
  | cons c tl ih =>
      intro a w
      simp only [List.foldl_cons]
      rw [ih (a + c * w) (w * x), ih (0 + c * 1) (1 * x)]
      ring

/-- evalPolynomial unfolds one coefficient at a time. -/
theorem evalPolynomial_cons (c : ZMod p) (tl : List (ZMod p)) (x : ZMod p) :
    evalPolynomial (c :: tl) x = c + x * evalPolynomial tl x := by
  unfold evalPolynomial
  simp only [List.foldl_cons]
  rw [evalPolynomial_foldl_aux x tl (0 + c * 1) (1 * x),
    show (0 + c * 1 : ZMod p) = c by ring]
  ring

theorem evalPolynomial_nil (x : ZMod p) : evalPolynomial ([] : List (ZMod p)) x = 0 := rfl

/-- Index-shift recursion for the commitPowProduct fold. -/
theorem commitPowProduct_foldl_aux (i : ℕ) (l : List (ZMod p)) :
    ∀ (a : ZMod p) (j : ℕ),
      ((l.foldl (fun (st : ZMod p × ℕ) v => (st.1 + v * ((i : ZMod p)) ^ st.2, st.2 + 1)) (a, j)).1 =
        a + ((i : ZMod p)) ^ j *
          (l.foldl (fun (st : ZMod p × ℕ) v => (st.1 + v * ((i : ZMod p)) ^ st.2, st.2 + 1)) (0, 0)).1) := by
  induction l with
  | nil => intro a j; simp
  | cons v tl ih =>
      intro a j
      simp only [List.foldl_cons]
      rw [ih (a + v * (i : ZMod p) ^ j) (j + 1), ih (0 + v * (i : ZMod p) ^ 0) (0 + 1)]
      ring

/-- commitPowProduct unfolds one commitment at a time. -/
theorem commitPowProduct_cons (v : ZMod p) (tl : List (ZMod p)) (i : ℕ) :
    commitPowProduct (v :: tl) i = v + (i : ZMod p) * commitPowProduct tl i := by
  unfold commitPowProduct
  simp only [List.foldl_cons]
  rw [commitPowProduct_foldl_aux i tl (0 + v * (i : ZMod p) ^ 0) (0 + 1),
    commitPowProduct_foldl_aux i tl 0 0]
  ring

/-- The product of commitments g^(coeff_j) raised to the powers i^j equals g
raised to the polynomial evaluation at i. -/
theorem commitPowProduct_map_mul (g : ZMod p) (L : List (ZMod p)) (i : ℕ) :
    commitPowProduct (L.map (fun c => g * c)) i = g * evalPolynomial L ((i : ℕ) : ZMod p) := by
  induction L with
  | nil => simp [commitPowProduct, evalPolynomial]
  | cons c tl ih =>
      rw [List.map_cons, commitPowProduct_cons, evalPolynomial_cons, ih]
      ring

/-- Completeness of the issuance KoR: an honestly generated computeKoR proof
for comi = g1^oi h1^did and com = g1^o h^did passes CheckKoR, for every hash
function (the verifier rebuilds exactly the hash input of the prover). -/
theorem CheckKoR_complete (params : TIACParams p) (hashZr : List (ZMod p) → ZMod p)
    (h oi did o r1 r2 r3 : ZMod p) :
    CheckKoR params hashZr (params.g1 * o + h * did) (params.g1 * oi + params.h1 * did) h
      (computeKoR params hashZr (params.g1 * o + h * did) (params.g1 * oi + params.h1 * did)
        params.g1 params.h1 h oi did o r1 r2 r3) = true := by
  unfold CheckKoR computeKoR
  have e1 : params.g1 * (r1 - hashZr [params.g1, h, params.h1, params.g1 * o + h * did,
        params.g1 * r3 + h * r2, params.g1 * oi + params.h1 * did,
        params.g1 * r1 + params.h1 * r2] * oi) +
      params.h1 * (r2 - hashZr [params.g1, h, params.h1, params.g1 * o + h * did,
        params.g1 * r3 + h * r2, params.g1 * oi + params.h1 * did,
        params.g1 * r1 + params.h1 * r2] * did) +
      (params.g1 * oi + params.h1 * did) * hashZr [params.g1, h, params.h1,
        params.g1 * o + h * did, params.g1 * r3 + h * r2,
        params.g1 * oi + params.h1 * did, params.g1 * r1 + params.h1 * r2] =
      params.g1 * r1 + params.h1 * r2 := by ring
  have e2 : params.g1 * (r3 - hashZr [params.g1, h, params.h1, params.g1 * o + h * did,
        params.g1 * r3 + h * r2, params.g1 * oi + params.h1 * did,
        params.g1 * r1 + params.h1 * r2] * o) +
      h * (r2 - hashZr [params.g1, h, params.h1, params.g1 * o + h * did,
        params.g1 * r3 + h * r2, params.g1 * oi + params.h1 * did,
        params.g1 * r1 + params.h1 * r2] * did) +
      (params.g1 * o + h * did) * hashZr [params.g1, h, params.h1,
        params.g1 * o + h * did, params.g1 * r3 + h * r2,
        params.g1 * oi + params.h1 * did, params.g1 * r1 + params.h1 * r2] =
      params.g1 * r3 + h * r2 := by ring
  simp only [e1, e2, beq_self_eq_true]

/-! ## Arithmetic helpers for the coefficient table -/

/-- Multiplying the cast of an exact integer quotient by the divisor recovers
the cast of the dividend. -/
theorem zmod_cast_div (p : ℕ) (e b : ℤ) (hb : b ∣ e) :
    ((b : ℤ) : ZMod p) * ((e / b : ℤ) : ZMod p) = ((e : ℤ) : ZMod p) := by
  rw [show ((e : ℤ) : ZMod p) = ((b * (e / b) : ℤ) : ZMod p) by
    rw [Int.mul_ediv_cancel' hb]]
  push_cast
  ring

/-- A prime of size at least 5 is odd, not divisible by 3, and hence 1 or 5
mod 6. -/
theorem prime_residues (p : ℕ) (pp : p.Prime) (hp : 5 ≤ p) :
    p % 2 = 1 ∧ (p % 3 = 1 ∨ p % 3 = 2) ∧ (p % 6 = 1 ∨ p % 6 = 5) := by
  have h2 : ¬ 2 ∣ p := fun h => by
    rcases (Nat.Prime.eq_one_or_self_of_dvd pp 2 h) with h1 | h1 <;> omega
  have h3 : ¬ 3 ∣ p := fun h => by
    rcases (Nat.Prime.eq_one_or_self_of_dvd pp 3 h) with h1 | h1 <;> omega
  have m2 : p % 2 ≠ 0 := fun h => h2 (Nat.dvd_of_mod_eq_zero h)
  have m3 : p % 3 ≠ 0 := fun h => h3 (Nat.dvd_of_mod_eq_zero h)
  refine ⟨by omega, by omega, by omega⟩

/-- In ZMod p with p prime at least 5, the numerals 1..4 are nonzero. -/
theorem small_natCast_ne_zero (p : ℕ) (pp : p.Prime) (hp : 5 ≤ p)
    (n : ℕ) (h0 : 0 < n) (h4 : n ≤ 4) : ((n : ℕ) : ZMod p) ≠ 0 := by
  haveI : NeZero p := ⟨by omega⟩
  intro h
  have hdvd := (ZMod.natCast_zmod_eq_zero_iff_dvd n p).mp h
  have := Nat.le_of_dvd h0 hdvd
  omega

/-- A prime at least 5 is coprime to every positive number up to 4 (and in
particular to the setFraction denominators 3, 4 and 8 via their prime parts);
stated here for the three denominators the table uses. -/
theorem gcd_den_one (p : ℕ) (pp : p.Prime) (hp : 5 ≤ p) (den : ℕ)
    (hden : den = 3 ∨ den = 4 ∨ den = 8) : Nat.gcd p den = 1 := by
  have h2 : ¬ 2 ∣ p := fun h => by
    rcases (Nat.Prime.eq_one_or_self_of_dvd pp 2 h) with h1 | h1 <;> omega
  have h3 : ¬ 3 ∣ p := fun h => by
    rcases (Nat.Prime.eq_one_or_self_of_dvd pp 3 h) with h1 | h1 <;> omega
  have c2 : Nat.Coprime p 2 := (Nat.coprime_primes pp (by norm_num)).mpr (by omega)
  rcases hden with h | h | h <;> subst h
  · exact (Nat.coprime_primes pp (by norm_num)).mpr (by omega)
  · simpa using Nat.Coprime.mul_right c2 c2
  · have c4 : Nat.Coprime p 4 := by simpa using Nat.Coprime.mul_right c2 c2
    simpa using Nat.Coprime.mul_right c4 c2

/-- setFraction is correct whenever gcd(p, den) = 1: the returned value times
the denominator is the numerator mod p.  The search loop always finds a k
because the congruence (p mod den) * k + num ≡ 0 (mod den) is solvable when
den is invertible mod ... coprime to p mod den. -/
theorem setFraction_mul (p : ℕ) (num : ℤ) (den : ℕ) (hden : 0 < den)
    (hgcd : Nat.gcd p den = 1) :
    ((den : ℕ) : ZMod p) * setFraction p num den = ((num : ℤ) : ZMod p) := by
  haveI : NeZero den := ⟨by omega⟩
  unfold setFraction
  rw [if_pos hgcd]
  have hcopa : Nat.Coprime (p % den) den := by
    have h1 : Nat.gcd den p = Nat.gcd (p % den) den := Nat.gcd_rec den p
    have h2 : Nat.gcd p den = Nat.gcd den p := Nat.gcd_comm p den
    unfold Nat.Coprime
    omega
  set u : (ZMod den)ˣ := ZMod.unitOfCoprime (p % den) hcopa with hu
  set k0 : ℕ := (((u⁻¹ : (ZMod den)ˣ) : ZMod den) * ((-num : ℤ) : ZMod den)).val with hk0
  have hk0lt : k0 < den := ZMod.val_lt _
  have hdvd0 : (den : ℤ) ∣ ((((p % den) * k0 : ℕ) : ℤ) + num) := by
    rw [← ZMod.intCast_zmod_eq_zero_iff_dvd]
    push_cast
    have hval : ((k0 : ℕ) : ZMod den) =
        ((u⁻¹ : (ZMod den)ˣ) : ZMod den) * ((-num : ℤ) : ZMod den) := by
      rw [hk0]
      simp [ZMod.natCast_val, ZMod.cast_id]
    rw [hval]
    have hcoe : ((p : ℕ) : ZMod den) = (u : ZMod den) := by
      rw [hu, ZMod.coe_unitOfCoprime, ZMod.natCast_mod]
    rw [hcoe]
    push_cast
    rw [show ((u : ZMod den)) * (((u⁻¹ : (ZMod den)ˣ) : ZMod den) * (-(num : ZMod den))) =
        ((u * u⁻¹ : (ZMod den)ˣ) : ZMod den) * (-(num : ZMod den)) by push_cast; ring]
    simp
  have hpred : (((((p % den) * k0 : ℕ) : ℤ) + num) % (den : ℤ) == 0) = true := by
    rw [beq_iff_eq]
    exact Int.emod_eq_zero_of_dvd hdvd0
  rcases hfind : (List.range den).find?
      (fun k => (((((p % den) * k : ℕ) : ℤ) + num) % (den : ℤ) == 0)) with _ | k
  · exact absurd hpred (List.find?_eq_none.mp hfind k0 (List.mem_range.mpr hk0lt))
  · have hk := List.find?_some hfind
    rw [beq_iff_eq] at hk
    have hdvd : (den : ℤ) ∣ ((((p % den) * k : ℕ) : ℤ) + num) := Int.dvd_of_emod_eq_zero hk
    have hdvd2 : (den : ℤ) ∣ (((p * k : ℕ) : ℤ) + num) := by
      have hsplit : (((p * k : ℕ) : ℤ) + num) =
          (den : ℤ) * ((p / den : ℕ) * k) + ((((p % den) * k : ℕ) : ℤ) + num) := by
        have hdm : den * (p / den) + p % den = p := Nat.div_add_mod p den
        push_cast
        nlinarith [hdm]
      rw [hsplit]
      exact dvd_add (Dvd.intro _ rfl) hdvd
    simp only [hfind]
    rw [show ((den : ℕ) : ZMod p) = (((den : ℕ) : ℤ) : ZMod p) by push_cast; rfl]
    rw [zmod_cast_div p _ ((den : ℕ) : ℤ) hdvd2]
    push_cast [ZMod.natCast_self]
    ring

/-- Denominator-cleared evaluation of the spec Lagrange formula on a
two-point list. -/
theorem specLC_two (p : ℕ) [Fact p.Prime] (x0 x1 : ℤ)
    (h01 : ((x0 - x1 : ℤ) : ZMod p) ≠ 0) :
    ((x0 - x1 : ℤ) : ZMod p) * specLagrangeCoefficient p [x0, x1] 0 =
      ((-x1 : ℤ) : ZMod p) ∧
    ((x1 - x0 : ℤ) : ZMod p) * specLagrangeCoefficient p [x0, x1] 1 =
      ((-x0 : ℤ) : ZMod p) := by
  have h10 : ((x1 - x0 : ℤ) : ZMod p) ≠ 0 := by
    intro h
    apply h01
    have : ((x0 - x1 : ℤ) : ZMod p) = -((x1 - x0 : ℤ) : ZMod p) := by push_cast; ring
    rw [this, h, neg_zero]
  constructor
  · show ((x0 - x1 : ℤ) : ZMod p) *
        (1 * (((-x1 : ℤ) : ZMod p) * (((x0 - x1 : ℤ) : ZMod p))⁻¹)) = ((-x1 : ℤ) : ZMod p)
    have m1 := ZMod.mul_inv_of_unit _ h01.isUnit
    linear_combination ((-x1 : ℤ) : ZMod p) * m1
  · show ((x1 - x0 : ℤ) : ZMod p) *
        (1 * (((-x0 : ℤ) : ZMod p) * (((x1 - x0 : ℤ) : ZMod p))⁻¹)) = ((-x0 : ℤ) : ZMod p)
    have m1 := ZMod.mul_inv_of_unit _ h10.isUnit
    linear_combination ((-x0 : ℤ) : ZMod p) * m1

/-- Denominator-cleared evaluation of the spec Lagrange formula on a
three-point list. -/
theorem specLC_three (p : ℕ) [Fact p.Prime] (x0 x1 x2 : ℤ)
    (h01 : ((x0 - x1 : ℤ) : ZMod p) ≠ 0)
    (h02 : ((x0 - x2 : ℤ) : ZMod p) ≠ 0)
    (h12 : ((x1 - x2 : ℤ) : ZMod p) ≠ 0) :
    (((x0 - x1) * (x0 - x2) : ℤ) : ZMod p) * specLagrangeCoefficient p [x0, x1, x2] 0 =
      ((x1 * x2 : ℤ) : ZMod p) ∧
    (((x1 - x0) * (x1 - x2) : ℤ) : ZMod p) * specLagrangeCoefficient p [x0, x1, x2] 1 =
      ((x0 * x2 : ℤ) : ZMod p) ∧
    (((x2 - x0) * (x2 - x1) : ℤ) : ZMod p) * specLagrangeCoefficient p [x0, x1, x2] 2 =
      ((x0 * x1 : ℤ) : ZMod p) := by
  have hneg : ∀ a b : ℤ, ((a - b : ℤ) : ZMod p) ≠ 0 → ((b - a : ℤ) : ZMod p) ≠ 0 := by
    intro a b hab h
    apply hab
    have : ((a - b : ℤ) : ZMod p) = -((b - a : ℤ) : ZMod p) := by push_cast; ring
    rw [this, h, neg_zero]
  have h10 := hneg _ _ h01
  have h20 := hneg _ _ h02
  have h21 := hneg _ _ h12
  refine ⟨?_, ?_, ?_⟩
  · show (((x0 - x1) * (x0 - x2) : ℤ) : ZMod p) *
        (1 * (((-x1 : ℤ) : ZMod p) * (((x0 - x1 : ℤ) : ZMod p))⁻¹) *
          (((-x2 : ℤ) : ZMod p) * (((x0 - x2 : ℤ) : ZMod p))⁻¹)) = ((x1 * x2 : ℤ) : ZMod p)
    have m1 := ZMod.mul_inv_of_unit _ h01.isUnit
    have m2 := ZMod.mul_inv_of_unit _ h02.isUnit
    push_cast at m1 m2 ⊢
    linear_combination ((x1 : ZMod p) * (x2 : ZMod p) * ((x0 : ZMod p) - (x2 : ZMod p)) *
        (((x0 : ZMod p) - (x2 : ZMod p)))⁻¹) * m1 +
      ((x1 : ZMod p) * (x2 : ZMod p)) * m2
  · show (((x1 - x0) * (x1 - x2) : ℤ) : ZMod p) *
        (1 * (((-x0 : ℤ) : ZMod p) * (((x1 - x0 : ℤ) : ZMod p))⁻¹) *
          (((-x2 : ℤ) : ZMod p) * (((x1 - x2 : ℤ) : ZMod p))⁻¹)) = ((x0 * x2 : ℤ) : ZMod p)
    have m1 := ZMod.mul_inv_of_unit _ h10.isUnit
    have m2 := ZMod.mul_inv_of_unit _ h12.isUnit
    push_cast at m1 m2 ⊢
    linear_combination ((x0 : ZMod p) * (x2 : ZMod p) * ((x1 : ZMod p) - (x2 : ZMod p)) *
        (((x1 : ZMod p) - (x2 : ZMod p)))⁻¹) * m1 +
      ((x0 : ZMod p) * (x2 : ZMod p)) * m2
  · show (((x2 - x0) * (x2 - x1) : ℤ) : ZMod p) *
        (1 * (((-x0 : ℤ) : ZMod p) * (((x2 - x0 : ℤ) : ZMod p))⁻¹) *
          (((-x1 : ℤ) : ZMod p) * (((x2 - x1 : ℤ) : ZMod p))⁻¹)) = ((x0 * x1 : ℤ) : ZMod p)
    have m1 := ZMod.mul_inv_of_unit _ h20.isUnit
    have m2 := ZMod.mul_inv_of_unit _ h21.isUnit
    push_cast at m1 m2 ⊢
    linear_combination ((x0 : ZMod p) * (x1 : ZMod p) * ((x2 : ZMod p) - (x1 : ZMod p)) *
        (((x2 : ZMod p) - (x1 : ZMod p)))⁻¹) * m1 +
      ((x0 : ZMod p) * (x1 : ZMod p)) * m2

/-! ## Denominator-cleared values of every explicit table entry.
IDs name the shifted point sets; the admin ID lists passed to
computeLagrangeCoefficient are the points shifted down by one. -/

/-- Table entries for shifted points (1, 2). -/
theorem tf_12 (p : ℕ) :
    computeLagrangeCoefficient p [0, 1] 0 = 2 ∧
    computeLagrangeCoefficient p [0, 1] 1 = -1 := by
  constructor
  · rfl
  · show (((p : ℤ) - 1 : ℤ) : ZMod p) = -1
    push_cast [ZMod.natCast_self]
    ring

/-- Table entries for shifted points (1, 3). -/
theorem tf_13 (p : ℕ) (pp : p.Prime) (hp : 5 ≤ p) :
    (2 : ZMod p) * computeLagrangeCoefficient p [0, 2] 0 = 3 ∧
    (2 : ZMod p) * computeLagrangeCoefficient p [0, 2] 1 = -1 := by
  obtain ⟨h2, h3, h6⟩ := prime_residues p pp hp
  constructor
  · have h0 : computeLagrangeCoefficient p [0, 2] 0 =
        ((((p : ℤ) + 3) / 2 : ℤ) : ZMod p) := rfl
    rw [h0, show (2 : ZMod p) = ((2 : ℤ) : ZMod p) by norm_num,
      zmod_cast_div p _ 2 (by omega)]
    push_cast [ZMod.natCast_self]
    ring
  · have h0 : computeLagrangeCoefficient p [0, 2] 1 =
        ((((p : ℤ) - 1) / 2 : ℤ) : ZMod p) := rfl
    rw [h0, show (2 : ZMod p) = ((2 : ℤ) : ZMod p) by norm_num,
      zmod_cast_div p _ 2 (by omega)]
    push_cast [ZMod.natCast_self]
    ring

/-- Table entries for shifted points (2, 3). -/
theorem tf_23 (p : ℕ) :
    computeLagrangeCoefficient p [1, 2] 0 = 3 ∧
    computeLagrangeCoefficient p [1, 2] 1 = -2 := by
  constructor
  · rfl
  · show (((p : ℤ) - 2 : ℤ) : ZMod p) = -2
    push_cast [ZMod.natCast_self]
    ring

/-- Table entries for shifted points (1, 2, 3). -/
theorem tf_123 (p : ℕ) :
    computeLagrangeCoefficient p [0, 1, 2] 0 = 3 ∧
    computeLagrangeCoefficient p [0, 1, 2] 1 = -3 ∧
    computeLagrangeCoefficient p [0, 1, 2] 2 = 1 := by
  refine ⟨rfl, ?_, rfl⟩
  show (((p : ℤ) - 3 : ℤ) : ZMod p) = -3
  push_cast [ZMod.natCast_self]
  ring

/-- Table entries for shifted points (1, 2, 4). -/
theorem tf_124 (p : ℕ) (pp : p.Prime) (hp : 5 ≤ p) :
    (3 : ZMod p) * computeLagrangeCoefficient p [0, 1, 3] 0 = 8 ∧
    computeLagrangeCoefficient p [0, 1, 3] 1 = -2 ∧
    (3 : ZMod p) * computeLagrangeCoefficient p [0, 1, 3] 2 = 1 := by
  refine ⟨?_, ?_, ?_⟩
  · have h0 : computeLagrangeCoefficient p [0, 1, 3] 0 = setFraction p 8 3 := rfl
    rw [h0, show (3 : ZMod p) = ((3 : ℕ) : ZMod p) by norm_num,
      setFraction_mul p 8 3 (by norm_num) (gcd_den_one p pp hp 3 (by norm_num))]
    norm_num
  · show (((p : ℤ) - 2 : ℤ) : ZMod p) = -2
    push_cast [ZMod.natCast_self]
    ring
  · have h0 : computeLagrangeCoefficient p [0, 1, 3] 2 = setFraction p 1 3 := rfl
    rw [h0, show (3 : ZMod p) = ((3 : ℕ) : ZMod p) by norm_num,
      setFraction_mul p 1 3 (by norm_num) (gcd_den_one p pp hp 3 (by norm_num))]
    norm_num

/-- Table entries for shifted points (1, 2, 5), including the p mod 3 and
p mod 6 case splits. -/
theorem tf_125 (p : ℕ) (pp : p.Prime) (hp : 5 ≤ p) :
    (2 : ZMod p) * computeLagrangeCoefficient p [0, 1, 4] 0 = 5 ∧
    (3 : ZMod p) * computeLagrangeCoefficient p [0, 1, 4] 1 = -5 ∧
    (6 : ZMod p) * computeLagrangeCoefficient p [0, 1, 4] 2 = 1 := by
  obtain ⟨h2, h3, h6⟩ := prime_residues p pp hp
  refine ⟨?_, ?_, ?_⟩
  · have h0 : computeLagrangeCoefficient p [0, 1, 4] 0 =
        ((((p : ℤ) + 5) / 2 : ℤ) : ZMod p) := rfl
    rw [h0, show (2 : ZMod p) = ((2 : ℤ) : ZMod p) by norm_num,
      zmod_cast_div p _ 2 (by omega)]
    push_cast [ZMod.natCast_self]
    ring
  · have h0 : computeLagrangeCoefficient p [0, 1, 4] 1 =
        (if p % 3 = 2 then ((((p : ℤ) - 5) / 3 : ℤ) : ZMod p)
         else (((2 * (p : ℤ) - 5) / 3 : ℤ) : ZMod p)) := rfl
    rw [h0]
    rcases h3 with h | h
    · rw [if_neg (by omega), show (3 : ZMod p) = ((3 : ℤ) : ZMod p) by norm_num,
        zmod_cast_div p _ 3 (by omega)]
      push_cast [ZMod.natCast_self]
      ring
    · rw [if_pos h, show (3 : ZMod p) = ((3 : ℤ) : ZMod p) by norm_num,
        zmod_cast_div p _ 3 (by omega)]
      push_cast [ZMod.natCast_self]
      ring
  · have h0 : computeLagrangeCoefficient p [0, 1, 4] 2 =
        (if p % 6 = 5 then ((((p : ℤ) + 1) / 6 : ℤ) : ZMod p)
         else (((5 * (p : ℤ) + 1) / 6 : ℤ) : ZMod p)) := rfl
    rw [h0]
    rcases h6 with h | h
    · rw [if_neg (by omega), show (6 : ZMod p) = ((6 : ℤ) : ZMod p) by norm_num,
        zmod_cast_div p _ 6 (by omega)]
      push_cast [ZMod.natCast_self]
      ring
    · rw [if_pos h, show (6 : ZMod p) = ((6 : ℤ) : ZMod p) by norm_num,
        zmod_cast_div p _ 6 (by omega)]
      push_cast [ZMod.natCast_self]
      ring

/-- Table entries for shifted points (1, 3, 4). -/
theorem tf_134 (p : ℕ) :
    computeLagrangeCoefficient p [0, 2, 3] 0 = 2 ∧
    computeLagrangeCoefficient p [0, 2, 3] 1 = -2 ∧
    computeLagrangeCoefficient p [0, 2, 3] 2 = 1 := by
  refine ⟨rfl, ?_, rfl⟩
  show (((p : ℤ) - 2 : ℤ) : ZMod p) = -2
  push_cast [ZMod.natCast_self]
  ring

/-- Table entries for shifted points (1, 3, 5), all through setFraction. -/
theorem tf_135 (p : ℕ) (pp : p.Prime) (hp : 5 ≤ p) :
    (8 : ZMod p) * computeLagrangeCoefficient p [0, 2, 4] 0 = 15 ∧
    (4 : ZMod p) * computeLagrangeCoefficient p [0, 2, 4] 1 = -5 ∧
    (8 : ZMod p) * computeLagrangeCoefficient p [0, 2, 4] 2 = 3 := by
  refine ⟨?_, ?_, ?_⟩
  · have h0 : computeLagrangeCoefficient p [0, 2, 4] 0 = setFraction p 15 8 := rfl
    rw [h0, show (8 : ZMod p) = ((8 : ℕ) : ZMod p) by norm_num,
      setFraction_mul p 15 8 (by norm_num) (gcd_den_one p pp hp 8 (by norm_num))]
    norm_num
  · have h0 : computeLagrangeCoefficient p [0, 2, 4] 1 = setFraction p (-5) 4 := rfl
    rw [h0, show (4 : ZMod p) = ((4 : ℕ) : ZMod p) by norm_num,
      setFraction_mul p (-5) 4 (by norm_num) (gcd_den_one p pp hp 4 (by norm_num))]
    push_cast
    ring
  · have h0 : computeLagrangeCoefficient p [0, 2, 4] 2 = setFraction p 3 8 := rfl
    rw [h0, show (8 : ZMod p) = ((8 : ℕ) : ZMod p) by norm_num,
      setFraction_mul p 3 8 (by norm_num) (gcd_den_one p pp hp 8 (by norm_num))]
    norm_num

/-- Table entries for shifted points (1, 4, 5), including the p mod 3 case
splits. -/
theorem tf_145 (p : ℕ) (pp : p.Prime) (hp : 5 ≤ p) :
    (3 : ZMod p) * computeLagrangeCoefficient p [0, 3, 4] 0 = 5 ∧
    (3 : ZMod p) * computeLagrangeCoefficient p [0, 3, 4] 1 = -5 ∧
    computeLagrangeCoefficient p [0, 3, 4] 2 = 1 := by
  obtain ⟨h2, h3, h6⟩ := prime_residues p pp hp
  refine ⟨?_, ?_, rfl⟩
  · have h0 : computeLagrangeCoefficient p [0, 3, 4] 0 =
        (if p % 3 = 2 then (((2 * (p : ℤ) + 5) / 3 : ℤ) : ZMod p)
         else ((((p : ℤ) + 5) / 3 : ℤ) : ZMod p)) := rfl
    rw [h0]
    rcases h3 with h | h
    · rw [if_neg (by omega), show (3 : ZMod p) = ((3 : ℤ) : ZMod p) by norm_num,
        zmod_cast_div p _ 3 (by omega)]
      push_cast [ZMod.natCast_self]
      ring
    · rw [if_pos h, show (3 : ZMod p) = ((3 : ℤ) : ZMod p) by norm_num,
        zmod_cast_div p _ 3 (by omega)]
      push_cast [ZMod.natCast_self]
      ring
  · have h0 : computeLagrangeCoefficient p [0, 3, 4] 1 =
        (if p % 3 = 2 then ((((p : ℤ) - 5) / 3 : ℤ) : ZMod p)
         else (((2 * (p : ℤ) - 5) / 3 : ℤ) : ZMod p)) := rfl
    rw [h0]
    rcases h3 with h | h
    · rw [if_neg (by omega), show (3 : ZMod p) = ((3 : ℤ) : ZMod p) by norm_num,
        zmod_cast_div p _ 3 (by omega)]
      push_cast [ZMod.natCast_self]
      ring
    · rw [if_pos h, show (3 : ZMod p) = ((3 : ℤ) : ZMod p) by norm_num,
        zmod_cast_div p _ 3 (by omega)]
      push_cast [ZMod.natCast_self]
      ring

/-- Table entries for shifted points (2, 3, 4). -/
theorem tf_234 (p : ℕ) :
    computeLagrangeCoefficient p [1, 2, 3] 0 = 6 ∧
    computeLagrangeCoefficient p [1, 2, 3] 1 = -8 ∧
    computeLagrangeCoefficient p [1, 2, 3] 2 = 3 := by
  refine ⟨rfl, ?_, rfl⟩
  show (((p : ℤ) - 8 : ℤ) : ZMod p) = -8
  push_cast [ZMod.natCast_self]
  ring

/-- Table entries for shifted points (2, 3, 5). -/
theorem tf_235 (p : ℕ) :
    computeLagrangeCoefficient p [1, 2, 4] 0 = 5 ∧
    computeLagrangeCoefficient p [1, 2, 4] 1 = -5 ∧
    computeLagrangeCoefficient p [1, 2, 4] 2 = 1 := by
  refine ⟨rfl, ?_, rfl⟩
  show (((p : ℤ) - 5 : ℤ) : ZMod p) = -5
  push_cast [ZMod.natCast_self]
  ring

/-- Table entries for shifted points (2, 4, 5). -/
theorem tf_245 (p : ℕ) (pp : p.Prime) (hp : 5 ≤ p) :
    (3 : ZMod p) * computeLagrangeCoefficient p [1, 3, 4] 0 = 10 ∧
    computeLagrangeCoefficient p [1, 3, 4] 1 = -5 ∧
    (3 : ZMod p) * computeLagrangeCoefficient p [1, 3, 4] 2 = 8 := by
  refine ⟨?_, ?_, ?_⟩
  · have h0 : computeLagrangeCoefficient p [1, 3, 4] 0 = setFraction p 10 3 := rfl
    rw [h0, show (3 : ZMod p) = ((3 : ℕ) : ZMod p) by norm_num,
      setFraction_mul p 10 3 (by norm_num) (gcd_den_one p pp hp 3 (by norm_num))]
    norm_num
  · show (((p : ℤ) - 5 : ℤ) : ZMod p) = -5
    push_cast [ZMod.natCast_self]
    ring
  · have h0 : computeLagrangeCoefficient p [1, 3, 4] 2 = setFraction p 8 3 := rfl
    rw [h0, show (3 : ZMod p) = ((3 : ℕ) : ZMod p) by norm_num,
      setFraction_mul p 8 3 (by norm_num) (gcd_den_one p pp hp 3 (by norm_num))]
    norm_num

/-- Table entries for shifted points (3, 4, 5). -/
theorem tf_345 (p : ℕ) :
    computeLagrangeCoefficient p [2, 3, 4] 0 = 10 ∧
    computeLagrangeCoefficient p [2, 3, 4] 1 = -15 ∧
    computeLagrangeCoefficient p [2, 3, 4] 2 = 6 := by
  refine ⟨rfl, ?_, rfl⟩
  show (((p : ℤ) - 15 : ℤ) : ZMod p) = -15
  push_cast [ZMod.natCast_self]
  ring

/-- For a prime p at least 5, the cast of a small nonzero integer (the
pairwise differences of the shifted points, up to 4 in absolute value, and
their products, whose prime factors are at most 3) is nonzero in ZMod p. -/
theorem diff_ne_zero (p : ℕ) (pp : p.Prime) (hp : 5 ≤ p) (d : ℤ)
    (h0 : d ≠ 0) (h4 : d.natAbs ≤ 4) : ((d : ℤ) : ZMod p) ≠ 0 := by
  haveI : NeZero p := ⟨by omega⟩
  intro h
  have hdvd := (ZMod.intCast_zmod_eq_zero_iff_dvd d p).mp h
  have hnat : p ∣ d.natAbs := by
    have := Int.natAbs_dvd_natAbs.mpr hdvd
    simpa using this
  have := Nat.le_of_dvd (Int.natAbs_pos.mpr h0) hnat
  omega

/-- The explicit table entries for shifted points (1, 2) equal the spec
formula. -/
theorem tableEq_12 (p : ℕ) (pp : p.Prime) (hp : 5 ≤ p) :
    computeLagrangeCoefficient p [0, 1] 0 = specLagrangeCoefficient p [1, 2] 0 ∧
    computeLagrangeCoefficient p [0, 1] 1 = specLagrangeCoefficient p [1, 2] 1 := by
  haveI : Fact p.Prime := ⟨pp⟩
  obtain ⟨t0, t1⟩ := tf_12 p
  have h01 : ((1 - 2 : ℤ) : ZMod p) ≠ 0 := diff_ne_zero p pp hp _ (by norm_num) (by norm_num)
  obtain ⟨s0, s1⟩ := specLC_two p 1 2 h01
  have h10 : ((2 - 1 : ℤ) : ZMod p) ≠ 0 := by
    intro h; exact h01 (by push_cast at h ⊢; linear_combination -h)
  constructor
  · have e : ((1 - 2 : ℤ) : ZMod p) * computeLagrangeCoefficient p [0, 1] 0 =
        ((-(2 : ℤ) : ℤ) : ZMod p) := by
      push_cast
      linear_combination (-1 : ZMod p) * t0
    exact mul_left_cancel₀ h01 (e.trans s0.symm)
  · have e : ((2 - 1 : ℤ) : ZMod p) * computeLagrangeCoefficient p [0, 1] 1 =
        ((-(1 : ℤ) : ℤ) : ZMod p) := by
      push_cast
      linear_combination t1
    exact mul_left_cancel₀ h10 (e.trans s1.symm)

/-- The explicit table entries for shifted points (1, 3) equal the spec
formula. -/
theorem tableEq_13 (p : ℕ) (pp : p.Prime) (hp : 5 ≤ p) :
    computeLagrangeCoefficient p [0, 2] 0 = specLagrangeCoefficient p [1, 3] 0 ∧
    computeLagrangeCoefficient p [0, 2] 1 = specLagrangeCoefficient p [1, 3] 1 := by
  haveI : Fact p.Prime := ⟨pp⟩
  obtain ⟨t0, t1⟩ := tf_13 p pp hp
  have h01 : ((1 - 3 : ℤ) : ZMod p) ≠ 0 := diff_ne_zero p pp hp _ (by norm_num) (by norm_num)
  obtain ⟨s0, s1⟩ := specLC_two p 1 3 h01
  have h10 : ((3 - 1 : ℤ) : ZMod p) ≠ 0 := by
    intro h; exact h01 (by push_cast at h ⊢; linear_combination -h)
  constructor
  · have e : ((1 - 3 : ℤ) : ZMod p) * computeLagrangeCoefficient p [0, 2] 0 =
        ((-(3 : ℤ) : ℤ) : ZMod p) := by
      push_cast
      linear_combination (-1 : ZMod p) * t0
    exact mul_left_cancel₀ h01 (e.trans s0.symm)
  · have e : ((3 - 1 : ℤ) : ZMod p) * computeLagrangeCoefficient p [0, 2] 1 =
        ((-(1 : ℤ) : ℤ) : ZMod p) := by
      push_cast
      linear_combination t1
    exact mul_left_cancel₀ h10 (e.trans s1.symm)

/-- The explicit table entries for shifted points (2, 3) equal the spec
formula. -/
theorem tableEq_23 (p : ℕ) (pp : p.Prime) (hp : 5 ≤ p) :
    computeLagrangeCoefficient p [1, 2] 0 = specLagrangeCoefficient p [2, 3] 0 ∧
    computeLagrangeCoefficient p [1, 2] 1 = specLagrangeCoefficient p [2, 3] 1 := by
  haveI : Fact p.Prime := ⟨pp⟩
  obtain ⟨t0, t1⟩ := tf_23 p
  have h01 : ((2 - 3 : ℤ) : ZMod p) ≠ 0 := diff_ne_zero p pp hp _ (by norm_num) (by norm_num)
  obtain ⟨s0, s1⟩ := specLC_two p 2 3 h01
  have h10 : ((3 - 2 : ℤ) : ZMod p) ≠ 0 := by
    intro h; exact h01 (by push_cast at h ⊢; linear_combination -h)
  constructor
  · have e : ((2 - 3 : ℤ) : ZMod p) * computeLagrangeCoefficient p [1, 2] 0 =
        ((-(3 : ℤ) : ℤ) : ZMod p) := by
      push_cast
      linear_combination (-1 : ZMod p) * t0
    exact mul_left_cancel₀ h01 (e.trans s0.symm)
  · have e : ((3 - 2 : ℤ) : ZMod p) * computeLagrangeCoefficient p [1, 2] 1 =
        ((-(2 : ℤ) : ℤ) : ZMod p) := by
      push_cast
      linear_combination t1
    exact mul_left_cancel₀ h10 (e.trans s1.symm)

/-- Swapping the operands of a nonzero cast difference keeps it nonzero. -/
theorem cast_sub_ne_swap (p : ℕ) (a b : ℤ) (h : ((a - b : ℤ) : ZMod p) ≠ 0) :
    ((b - a : ℤ) : ZMod p) ≠ 0 := fun hh => h (by push_cast at hh ⊢; linear_combination -hh)

/-- Table entries equal the spec formula on a 3-point subset, given the
denominator-cleared value of each entry. -/
theorem tableEq_of_cleared (p : ℕ) [Fact p.Prime] (x0 x1 x2 : ℤ) (ids : List ℤ)
    (h01 : ((x0 - x1 : ℤ) : ZMod p) ≠ 0)
    (h02 : ((x0 - x2 : ℤ) : ZMod p) ≠ 0)
    (h12 : ((x1 - x2 : ℤ) : ZMod p) ≠ 0)
    (e0 : (((x0 - x1) * (x0 - x2) : ℤ) : ZMod p) * computeLagrangeCoefficient p ids 0 =
      ((x1 * x2 : ℤ) : ZMod p))
    (e1 : (((x1 - x0) * (x1 - x2) : ℤ) : ZMod p) * computeLagrangeCoefficient p ids 1 =
      ((x0 * x2 : ℤ) : ZMod p))
    (e2 : (((x2 - x0) * (x2 - x1) : ℤ) : ZMod p) * computeLagrangeCoefficient p ids 2 =
      ((x0 * x1 : ℤ) : ZMod p)) :
    computeLagrangeCoefficient p ids 0 = specLagrangeCoefficient p [x0, x1, x2] 0 ∧
    computeLagrangeCoefficient p ids 1 = specLagrangeCoefficient p [x0, x1, x2] 1 ∧
    computeLagrangeCoefficient p ids 2 = specLagrangeCoefficient p [x0, x1, x2] 2 := by
  obtain ⟨s0, s1, s2⟩ := specLC_three p x0 x1 x2 h01 h02 h12
  have n0 : (((x0 - x1) * (x0 - x2) : ℤ) : ZMod p) ≠ 0 := by
    rw [Int.cast_mul]
    exact mul_ne_zero h01 h02
  have n1 : (((x1 - x0) * (x1 - x2) : ℤ) : ZMod p) ≠ 0 := by
    rw [Int.cast_mul]
    exact mul_ne_zero (cast_sub_ne_swap p _ _ h01) h12
  have n2 : (((x2 - x0) * (x2 - x1) : ℤ) : ZMod p) ≠ 0 := by
    rw [Int.cast_mul]
    exact mul_ne_zero (cast_sub_ne_swap p _ _ h02) (cast_sub_ne_swap p _ _ h12)
  exact ⟨mul_left_cancel₀ n0 (e0.trans s0.symm), mul_left_cancel₀ n1 (e1.trans s1.symm),
    mul_left_cancel₀ n2 (e2.trans s2.symm)⟩

/-- The explicit table entries for shifted points (1, 2, 3) equal the spec
formula. -/
theorem tableEq_123 (p : ℕ) (pp : p.Prime) (hp : 5 ≤ p) :
    computeLagrangeCoefficient p [0, 1, 2] 0 = specLagrangeCoefficient p [1, 2, 3] 0 ∧
    computeLagrangeCoefficient p [0, 1, 2] 1 = specLagrangeCoefficient p [1, 2, 3] 1 ∧
    computeLagrangeCoefficient p [0, 1, 2] 2 = specLagrangeCoefficient p [1, 2, 3] 2 := by
  haveI : Fact p.Prime := ⟨pp⟩
  obtain ⟨t0, t1, t2⟩ := tf_123 p
  refine tableEq_of_cleared p 1 2 3 [0, 1, 2]
    (diff_ne_zero p pp hp _ (by norm_num) (by norm_num))
    (diff_ne_zero p pp hp _ (by norm_num) (by norm_num))
    (diff_ne_zero p pp hp _ (by norm_num) (by norm_num))
    (by push_cast; linear_combination (2 : ZMod p) * t0)
    (by push_cast; linear_combination (-1 : ZMod p) * t1)
    (by push_cast; linear_combination (2 : ZMod p) * t2)

/-- The explicit table entries for shifted points (1, 2, 4) equal the spec
formula. -/
theorem tableEq_124 (p : ℕ) (pp : p.Prime) (hp : 5 ≤ p) :
    computeLagrangeCoefficient p [0, 1, 3] 0 = specLagrangeCoefficient p [1, 2, 4] 0 ∧
    computeLagrangeCoefficient p [0, 1, 3] 1 = specLagrangeCoefficient p [1, 2, 4] 1 ∧
    computeLagrangeCoefficient p [0, 1, 3] 2 = specLagrangeCoefficient p [1, 2, 4] 2 := by
  haveI : Fact p.Prime := ⟨pp⟩
  obtain ⟨t0, t1, t2⟩ := tf_124 p pp hp
  refine tableEq_of_cleared p 1 2 4 [0, 1, 3]
    (diff_ne_zero p pp hp _ (by norm_num) (by norm_num))
    (diff_ne_zero p pp hp _ (by norm_num) (by norm_num))
    (diff_ne_zero p pp hp _ (by norm_num) (by norm_num))
    (by push_cast; linear_combination t0)
    (by push_cast; linear_combination (-2 : ZMod p) * t1)
    (by push_cast; linear_combination (2 : ZMod p) * t2)

/-- The explicit table entries for shifted points (1, 2, 5) equal the spec
formula. -/
theorem tableEq_125 (p : ℕ) (pp : p.Prime) (hp : 5 ≤ p) :
    computeLagrangeCoefficient p [0, 1, 4] 0 = specLagrangeCoefficient p [1, 2, 5] 0 ∧
    computeLagrangeCoefficient p [0, 1, 4] 1 = specLagrangeCoefficient p [1, 2, 5] 1 ∧
    computeLagrangeCoefficient p [0, 1, 4] 2 = specLagrangeCoefficient p [1, 2, 5] 2 := by
  haveI : Fact p.Prime := ⟨pp⟩
  obtain ⟨t0, t1, t2⟩ := tf_125 p pp hp
  refine tableEq_of_cleared p 1 2 5 [0, 1, 4]
    (diff_ne_zero p pp hp _ (by norm_num) (by norm_num))
    (diff_ne_zero p pp hp _ (by norm_num) (by norm_num))
    (diff_ne_zero p pp hp _ (by norm_num) (by norm_num))
    (by push_cast; linear_combination (2 : ZMod p) * t0)
    (by push_cast; linear_combination (-1 : ZMod p) * t1)
    (by push_cast; linear_combination (2 : ZMod p) * t2)

/-- The explicit table entries for shifted points (1, 3, 4) equal the spec
formula. -/
theorem tableEq_134 (p : ℕ) (pp : p.Prime) (hp : 5 ≤ p) :
    computeLagrangeCoefficient p [0, 2, 3] 0 = specLagrangeCoefficient p [1, 3, 4] 0 ∧
    computeLagrangeCoefficient p [0, 2, 3] 1 = specLagrangeCoefficient p [1, 3, 4] 1 ∧
    computeLagrangeCoefficient p [0, 2, 3] 2 = specLagrangeCoefficient p [1, 3, 4] 2 := by
  haveI : Fact p.Prime := ⟨pp⟩
  obtain ⟨t0, t1, t2⟩ := tf_134 p
  refine tableEq_of_cleared p 1 3 4 [0, 2, 3]
    (diff_ne_zero p pp hp _ (by norm_num) (by norm_num))
    (diff_ne_zero p pp hp _ (by norm_num) (by norm_num))
    (diff_ne_zero p pp hp _ (by norm_num) (by norm_num))
    (by push_cast; linear_combination (6 : ZMod p) * t0)
    (by push_cast; linear_combination (-2 : ZMod p) * t1)
    (by push_cast; linear_combination (3 : ZMod p) * t2)

/-- The explicit table entries for shifted points (1, 3, 5) equal the spec
formula. -/
theorem tableEq_135 (p : ℕ) (pp : p.Prime) (hp : 5 ≤ p) :
    computeLagrangeCoefficient p [0, 2, 4] 0 = specLagrangeCoefficient p [1, 3, 5] 0 ∧
    computeLagrangeCoefficient p [0, 2, 4] 1 = specLagrangeCoefficient p [1, 3, 5] 1 ∧
    computeLagrangeCoefficient p [0, 2, 4] 2 = specLagrangeCoefficient p [1, 3, 5] 2 := by
  haveI : Fact p.Prime := ⟨pp⟩
  obtain ⟨t0, t1, t2⟩ := tf_135 p pp hp
  refine tableEq_of_cleared p 1 3 5 [0, 2, 4]
    (diff_ne_zero p pp hp _ (by norm_num) (by norm_num))
    (diff_ne_zero p pp hp _ (by norm_num) (by norm_num))
    (diff_ne_zero p pp hp _ (by norm_num) (by norm_num))
    (by push_cast; linear_combination t0)
    (by push_cast; linear_combination (-1 : ZMod p) * t1)
    (by push_cast; linear_combination t2)

/-- The explicit table entries for shifted points (1, 4, 5) equal the spec
formula. -/
theorem tableEq_145 (p : ℕ) (pp : p.Prime) (hp : 5 ≤ p) :
    computeLagrangeCoefficient p [0, 3, 4] 0 = specLagrangeCoefficient p [1, 4, 5] 0 ∧
    computeLagrangeCoefficient p [0, 3, 4] 1 = specLagrangeCoefficient p [1, 4, 5] 1 ∧
    computeLagrangeCoefficient p [0, 3, 4] 2 = specLagrangeCoefficient p [1, 4, 5] 2 := by
  haveI : Fact p.Prime := ⟨pp⟩
  obtain ⟨t0, t1, t2⟩ := tf_145 p pp hp
  refine tableEq_of_cleared p 1 4 5 [0, 3, 4]
    (diff_ne_zero p pp hp _ (by norm_num) (by norm_num))
    (diff_ne_zero p pp hp _ (by norm_num) (by norm_num))
    (diff_ne_zero p pp hp _ (by norm_num) (by norm_num))
    (by push_cast; linear_combination (4 : ZMod p) * t0)
    (by push_cast; linear_combination (-1 : ZMod p) * t1)
    (by push_cast; linear_combination (4 : ZMod p) * t2)

/-- The explicit table entries for shifted points (2, 3, 4) equal the spec
formula. -/
theorem tableEq_234 (p : ℕ) (pp : p.Prime) (hp : 5 ≤ p) :
    computeLagrangeCoefficient p [1, 2, 3] 0 = specLagrangeCoefficient p [2, 3, 4] 0 ∧
    computeLagrangeCoefficient p [1, 2, 3] 1 = specLagrangeCoefficient p [2, 3, 4] 1 ∧
    computeLagrangeCoefficient p [1, 2, 3] 2 = specLagrangeCoefficient p [2, 3, 4] 2 := by
  haveI : Fact p.Prime := ⟨pp⟩
  obtain ⟨t0, t1, t2⟩ := tf_234 p
  refine tableEq_of_cleared p 2 3 4 [1, 2, 3]
    (diff_ne_zero p pp hp _ (by norm_num) (by norm_num))
    (diff_ne_zero p pp hp _ (by norm_num) (by norm_num))
    (diff_ne_zero p pp hp _ (by norm_num) (by norm_num))
    (by push_cast; linear_combination (2 : ZMod p) * t0)
    (by push_cast; linear_combination (-1 : ZMod p) * t1)
    (by push_cast; linear_combination (2 : ZMod p) * t2)

/-- The explicit table entries for shifted points (2, 3, 5) equal the spec
formula. -/
theorem tableEq_235 (p : ℕ) (pp : p.Prime) (hp : 5 ≤ p) :
    computeLagrangeCoefficient p [1, 2, 4] 0 = specLagrangeCoefficient p [2, 3, 5] 0 ∧
    computeLagrangeCoefficient p [1, 2, 4] 1 = specLagrangeCoefficient p [2, 3, 5] 1 ∧
    computeLagrangeCoefficient p [1, 2, 4] 2 = specLagrangeCoefficient p [2, 3, 5] 2 := by
  haveI : Fact p.Prime := ⟨pp⟩
  obtain ⟨t0, t1, t2⟩ := tf_235 p
  refine tableEq_of_cleared p 2 3 5 [1, 2, 4]
    (diff_ne_zero p pp hp _ (by norm_num) (by norm_num))
    (diff_ne_zero p pp hp _ (by norm_num) (by norm_num))
    (diff_ne_zero p pp hp _ (by norm_num) (by norm_num))
    (by push_cast; linear_combination (3 : ZMod p) * t0)
    (by push_cast; linear_combination (-2 : ZMod p) * t1)
    (by push_cast; linear_combination (6 : ZMod p) * t2)

/-- The explicit table entries for shifted points (2, 4, 5) equal the spec
formula. -/
theorem tableEq_245 (p : ℕ) (pp : p.Prime) (hp : 5 ≤ p) :
    computeLagrangeCoefficient p [1, 3, 4] 0 = specLagrangeCoefficient p [2, 4, 5] 0 ∧
    computeLagrangeCoefficient p [1, 3, 4] 1 = specLagrangeCoefficient p [2, 4, 5] 1 ∧
    computeLagrangeCoefficient p [1, 3, 4] 2 = specLagrangeCoefficient p [2, 4, 5] 2 := by
  haveI : Fact p.Prime := ⟨pp⟩
  obtain ⟨t0, t1, t2⟩ := tf_245 p pp hp
  refine tableEq_of_cleared p 2 4 5 [1, 3, 4]
    (diff_ne_zero p pp hp _ (by norm_num) (by norm_num))
    (diff_ne_zero p pp hp _ (by norm_num) (by norm_num))
    (diff_ne_zero p pp hp _ (by norm_num) (by norm_num))
    (by push_cast; linear_combination (2 : ZMod p) * t0)
    (by push_cast; linear_combination (-2 : ZMod p) * t1)
    (by push_cast; linear_combination t2)

/-- The explicit table entries for shifted points (3, 4, 5) equal the spec
formula. -/
theorem tableEq_345 (p : ℕ) (pp : p.Prime) (hp : 5 ≤ p) :
    computeLagrangeCoefficient p [2, 3, 4] 0 = specLagrangeCoefficient p [3, 4, 5] 0 ∧
    computeLagrangeCoefficient p [2, 3, 4] 1 = specLagrangeCoefficient p [3, 4, 5] 1 ∧
    computeLagrangeCoefficient p [2, 3, 4] 2 = specLagrangeCoefficient p [3, 4, 5] 2 := by
  haveI : Fact p.Prime := ⟨pp⟩
  obtain ⟨t0, t1, t2⟩ := tf_345 p
  refine tableEq_of_cleared p 3 4 5 [2, 3, 4]
    (diff_ne_zero p pp hp _ (by norm_num) (by norm_num))
    (diff_ne_zero p pp hp _ (by norm_num) (by norm_num))
    (diff_ne_zero p pp hp _ (by norm_num) (by norm_num))
    (by push_cast; linear_combination (2 : ZMod p) * t0)
    (by push_cast; linear_combination (-1 : ZMod p) * t1)
    (by push_cast; linear_combination (2 : ZMod p) * t2)

/-! ## Honest-pipeline step lemmas -/

/-- Bind on a successful Except value reduces to the continuation. -/
theorem except_bind_ok {ε α β : Type} (a : α) (f : α → Except ε β) :
    (Except.ok a >>= f : Except ε β) = f a := rfl

/-- In the keygen output, the EA key at (0-based) admin index a holds the
polynomial evaluations at a + 1. -/
theorem keygen_eaKeys_getD (params : TIACParams p) (vPoly wPoly : List (ZMod p))
    (ne a : ℕ) (ha : a < ne) :
    (keygen params vPoly wPoly ne).eaKeys.getD a default =
      ⟨evalPolynomial vPoly ((a + 1 : ℕ) : ZMod p),
       evalPolynomial wPoly ((a + 1 : ℕ) : ZMod p),
       params.g2 * evalPolynomial vPoly ((a + 1 : ℕ) : ZMod p),
       params.g2 * evalPolynomial wPoly ((a + 1 : ℕ) : ZMod p),
       params.g1 * evalPolynomial wPoly ((a + 1 : ℕ) : ZMod p)⟩ := by
  unfold keygen
  rw [List.getD_eq_getElem?_getD, List.getElem?_map, List.getElem?_range ha]
  rfl

/-- blindSign succeeds on an honest prepareBlindSign output: the issuance KoR
verifies and the hash check passes, so the partial blind signature
(h, h^xm * com^ym) is returned. -/
theorem blindSign_prepare_ok (params : TIACParams p) (hashG1 : ZMod p → ZMod p)
    (hashZr : List (ZMod p) → ZMod p) (did oi o r1 r2 r3 xm ym : ZMod p)
    (adminId voterId : ℤ) :
    blindSign params hashG1 hashZr
        (prepareBlindSign params hashG1 hashZr did oi o r1 r2 r3) xm ym adminId voterId =
      .ok ⟨(prepareBlindSign params hashG1 hashZr did oi o r1 r2 r3).h,
           (prepareBlindSign params hashG1 hashZr did oi o r1 r2 r3).h * xm +
             (prepareBlindSign params hashG1 hashZr did oi o r1 r2 r3).com * ym,
           adminId, voterId⟩ := by
  have hK : CheckKoR params hashZr
      (prepareBlindSign params hashG1 hashZr did oi o r1 r2 r3).com
      (prepareBlindSign params hashG1 hashZr did oi o r1 r2 r3).comi
      (prepareBlindSign params hashG1 hashZr did oi o r1 r2 r3).h
      (prepareBlindSign params hashG1 hashZr did oi o r1 r2 r3).pi_s = true :=
    CheckKoR_complete params hashZr
      (hashG1 (params.g1 * oi + params.h1 * did)) oi did o r1 r2 r3
  have hH : (hashG1 (prepareBlindSign params hashG1 hashZr did oi o r1 r2 r3).comi ==
      (prepareBlindSign params hashG1 hashZr did oi o r1 r2 r3).h) = true :=
    beq_self_eq_true _
  unfold blindSign
  rw [if_pos hK, if_pos hH]

/-- unblindSign succeeds on an honest partial blind signature with the honest
EA key, returning the partial signature with s_m = h^(xm + ym * did). -/
theorem unblindSign_honest_aux (params : TIACParams p) (hashG1 : ZMod p → ZMod p)
    (bsOut : PrepareBlindSignOutput p) (blindSig : BlindSignature p)
    (eaKey : EAKey p) (did xm ym : ZMod p)
    (hh : bsOut.h = hashG1 bsOut.comi)
    (hcom : bsOut.com = params.g1 * bsOut.o + bsOut.h * did)
    (hbsh : blindSig.h = bsOut.h)
    (hbscm : blindSig.cm = bsOut.h * xm + bsOut.com * ym)
    (hvk1 : eaKey.vkm1 = params.g2 * xm)
    (hvk2 : eaKey.vkm2 = params.g2 * ym)
    (hvk3 : eaKey.vkm3 = params.g1 * ym) :
    unblindSign params hashG1 bsOut blindSig eaKey did =
      .ok ⟨blindSig.h, blindSig.h * (xm + ym * did)⟩ := by
  have hpair : blindSig.h * (eaKey.vkm1 + eaKey.vkm2 * did) =
      (blindSig.cm + eaKey.vkm3 * (-bsOut.o)) * params.g2 := by
    rw [hbsh, hbscm, hvk1, hvk2, hvk3, hcom]; ring
  have hsm : blindSig.cm + eaKey.vkm3 * (-bsOut.o) = blindSig.h * (xm + ym * did) := by
    rw [hbsh, hbscm, hvk3, hcom]; ring
  unfold unblindSign
  rw [if_pos (by rw [← hh, beq_self_eq_true]),
    if_pos (by rw [hpair, beq_self_eq_true]), hsm]

/-- The per-admin loop of the pipeline succeeds on honest data, producing for
each admin ID a the pair (a, (h, h^(v(a+1) + w(a+1) * did))). -/
theorem runPartials_ok (params : TIACParams p) (hashG1 : ZMod p → ZMod p)
    (hashZr : List (ZMod p) → ZMod p) (vPoly wPoly : List (ZMod p)) (ne : ℕ)
    (did oi o r1 r2 r3 : ZMod p) (voterId : ℤ) (adminIds : List ℕ)
    (hlt : ∀ a ∈ adminIds, a < ne) :
    runPartials params hashG1 hashZr
        (prepareBlindSign params hashG1 hashZr did oi o r1 r2 r3)
        (keygen params vPoly wPoly ne).eaKeys did voterId adminIds =
      .ok (adminIds.map (fun (a : ℕ) =>
        ((a : ℤ), ⟨(prepareBlindSign params hashG1 hashZr did oi o r1 r2 r3).h,
          (prepareBlindSign params hashG1 hashZr did oi o r1 r2 r3).h *
            (evalPolynomial vPoly ((a + 1 : ℕ) : ZMod p) +
              evalPolynomial wPoly ((a + 1 : ℕ) : ZMod p) * did)⟩))) := by
  induction adminIds with
  | nil => rfl
  | cons a rest ih =>
      have ha : a < ne := hlt a (by simp)
      have hrest : ∀ b ∈ rest, b < ne := fun b hb => hlt b (by simp [hb])
      rw [runPartials, keygen_eaKeys_getD params vPoly wPoly ne a ha]
      rw [blindSign_prepare_ok params hashG1 hashZr did oi o r1 r2 r3]
      rw [except_bind_ok]
      rw [unblindSign_honest_aux params hashG1 _ _ _ did
        (evalPolynomial vPoly ((a + 1 : ℕ) : ZMod p))
        (evalPolynomial wPoly ((a + 1 : ℕ) : ZMod p))
        rfl rfl rfl rfl rfl rfl rfl]
      rw [except_bind_ok]
      rw [ih hrest]
      rw [except_bind_ok]
      rfl

/-- Completeness of the presentation KoR as composed by the pipeline: when
the credential k was built as alpha2 * beta2^did * g2^r and
com = g1^o * h^did over the same h handed to both generateKoRProof and
checkKoRVerify, the attached proof verifies, for every hash function. -/
theorem checkKoRVerify_attach_ok (params : TIACParams p)
    (hashZr : List (ZMod p) → ZMod p) (mvk : MasterVerKey p)
    (pOut : ProveCredentialOutput p) (h did o rho1 rho2 rho3 com : ZMod p)
    (hk : pOut.k = mvk.alpha2 + mvk.beta2 * did + params.g2 * pOut.r)
    (hcom : com = params.g1 * o + h * did) :
    checkKoRVerify params hashZr
      (attachKoR pOut (generateKoRProof params hashZr h pOut.k pOut.r com
        mvk.alpha2 mvk.beta2 did o rho1 rho2 rho3)) mvk com h = true := by
  unfold checkKoRVerify attachKoR generateKoRProof
  have e1 : params.g2 * (rho1 - hashZr [params.g1, params.g2, h, com,
        params.g1 * rho3 + h * rho2, pOut.k,
        params.g2 * rho1 + mvk.alpha2 + mvk.beta2 * rho2] * pOut.r) +
      mvk.alpha2 * (1 - hashZr [params.g1, params.g2, h, com,
        params.g1 * rho3 + h * rho2, pOut.k,
        params.g2 * rho1 + mvk.alpha2 + mvk.beta2 * rho2]) +
      pOut.k * hashZr [params.g1, params.g2, h, com,
        params.g1 * rho3 + h * rho2, pOut.k,
        params.g2 * rho1 + mvk.alpha2 + mvk.beta2 * rho2] +
      mvk.beta2 * (rho2 - hashZr [params.g1, params.g2, h, com,
        params.g1 * rho3 + h * rho2, pOut.k,
        params.g2 * rho1 + mvk.alpha2 + mvk.beta2 * rho2] * did) =
      params.g2 * rho1 + mvk.alpha2 + mvk.beta2 * rho2 := by
    rw [hk]; ring
  have e2 : params.g1 * (rho3 - hashZr [params.g1, params.g2, h, com,
        params.g1 * rho3 + h * rho2, pOut.k,
        params.g2 * rho1 + mvk.alpha2 + mvk.beta2 * rho2] * o) +
      h * (rho2 - hashZr [params.g1, params.g2, h, com,
        params.g1 * rho3 + h * rho2, pOut.k,
        params.g2 * rho1 + mvk.alpha2 + mvk.beta2 * rho2] * did) +
      com * hashZr [params.g1, params.g2, h, com,
        params.g1 * rho3 + h * rho2, pOut.k,
        params.g2 * rho1 + mvk.alpha2 + mvk.beta2 * rho2] =
      params.g1 * rho3 + h * rho2 := by
    rw [hcom]; ring
  simp only [e1, e2, beq_self_eq_true]

/-! ## Claim theorems -/

/-- C10: for every input, the ProveCredentialOutput returned by proveCredential
has its presentation-proof fields c, s1, s2, s3 all equal to the zero element
of Zr (they are element_init_Zr-initialized to zero and never assigned inside
proveCredential); the presentation KoR attached to a credential comes only
from the separate generateKoRProof call of the caller, which overwrites
exactly those four fields and leaves the rest of the credential unchanged. -/
theorem C10_proveCredential_kor_fields_zero (p : ℕ) (params : TIACParams p)
    (aggSig : AggregateSignature p) (mvk : MasterVerKey p)
    (did o r r_prime : ZMod p) (korProof : KnowledgeOfRepProof p) :
    ((proveCredential params aggSig mvk did o r r_prime).c = 0 ∧
     (proveCredential params aggSig mvk did o r r_prime).s1 = 0 ∧
     (proveCredential params aggSig mvk did o r r_prime).s2 = 0 ∧
     (proveCredential params aggSig mvk did o r r_prime).s3 = 0) ∧
    (attachKoR (proveCredential params aggSig mvk did o r r_prime) korProof =
      { proveCredential params aggSig mvk did o r r_prime with
          c := korProof.c, s1 := korProof.s1, s2 := korProof.s2, s3 := korProof.s3 }) :=
  ⟨⟨rfl, rfl, rfl, rfl⟩, rfl⟩

/-- C6: re-randomization preserves signature validity.  For every aggregate
signature (h, s) and DID scalar with e(h, alpha2 * beta2^did) = e(s, g2) and
every r, r_prime, the proveCredential outputs are exactly
h2 = h^r_prime, s2 = s^r_prime * h2^r and k = alpha2 * beta2^did * g2^r, and
they satisfy the verifier pairing equation, so pairingCheck returns true. -/
theorem C6_rerandomization_preserves_validity (p : ℕ) (params : TIACParams p)
    (aggSig : AggregateSignature p) (mvk : MasterVerKey p) (did o r r_prime : ZMod p)
    (hvalid : aggSig.h * (mvk.alpha2 + mvk.beta2 * did) = aggSig.s * params.g2) :
    (proveCredential params aggSig mvk did o r r_prime).sigmaRnd.h = aggSig.h * r_prime ∧
    (proveCredential params aggSig mvk did o r r_prime).sigmaRnd.s =
      aggSig.s * r_prime + (aggSig.h * r_prime) * r ∧
    (proveCredential params aggSig mvk did o r r_prime).k =
      mvk.alpha2 + mvk.beta2 * did + params.g2 * r ∧
    pairingCheck params (proveCredential params aggSig mvk did o r r_prime) = true := by
  refine ⟨rfl, rfl, rfl, ?_⟩
  simp only [pairingCheck, proveCredential, beq_iff_eq]
  linear_combination r_prime * hvalid

/-- C6 witness: the theorem applied at p = 7 with a concrete valid aggregate
signature. -/
theorem C6_witness :
    pairingCheck (⟨1, 1, 1⟩ : TIACParams 7)
      (proveCredential ⟨1, 1, 1⟩ ⟨1, 1⟩ ⟨1, 0, 0⟩ 0 0 2 3) = true :=
  (C6_rerandomization_preserves_validity 7 ⟨1, 1, 1⟩ ⟨1, 1⟩ ⟨1, 0, 0⟩ 0 0 2 3
    (by decide)).2.2.2

/-- C7: under the honest preconditions (h is the hash of comi,
cm = h^xm * com^ym with com = g1^o h^did, and vkm1 = g2^xm, vkm2 = g2^ym,
vkm3 = g1^ym), unblindSign computes s_m = cm * vkm3^(-o), its pairing sanity
check e(h, vkm1 * vkm2^did) = e(s_m, g2) holds, neither the hash-mismatch nor
the pairing-failure error branch is reachable, and (h, s_m) is returned. -/
theorem C7_unblindSign_honest (p : ℕ) (params : TIACParams p)
    (hashG1 : ZMod p → ZMod p) (bsOut : PrepareBlindSignOutput p)
    (blindSig : BlindSignature p) (eaKey : EAKey p) (did xm ym : ZMod p)
    (hh : bsOut.h = hashG1 bsOut.comi)
    (hcom : bsOut.com = params.g1 * bsOut.o + bsOut.h * did)
    (hbsh : blindSig.h = bsOut.h)
    (hbscm : blindSig.cm = bsOut.h * xm + bsOut.com * ym)
    (hvk1 : eaKey.vkm1 = params.g2 * xm)
    (hvk2 : eaKey.vkm2 = params.g2 * ym)
    (hvk3 : eaKey.vkm3 = params.g1 * ym) :
    unblindSign params hashG1 bsOut blindSig eaKey did =
      .ok ⟨blindSig.h, blindSig.cm + eaKey.vkm3 * (-bsOut.o)⟩ := by
  have hpair : blindSig.h * (eaKey.vkm1 + eaKey.vkm2 * did) =
      (blindSig.cm + eaKey.vkm3 * (-bsOut.o)) * params.g2 := by
    rw [hbsh, hbscm, hvk1, hvk2, hvk3, hcom]; ring
  unfold unblindSign
  rw [if_pos (by rw [← hh, beq_self_eq_true]), if_pos (by rw [hpair, beq_self_eq_true])]

/-- C7 witness: the theorem applied at p = 7 with concrete honest data. -/
theorem C7_witness :
    unblindSign (⟨1, 1, 2⟩ : TIACParams 7) (fun _ => 3)
      ⟨5, 3, 1 * 4 + 3 * 6, ⟨0, 0, 0, 0⟩, 4, 1 * 4 + 3 * 6⟩
      ⟨3, 3 * 2 + (1 * 4 + 3 * 6) * 5, 0, 0⟩ ⟨2, 5, 1 * 2, 1 * 5, 1 * 5⟩ 6 =
      .ok ⟨3, (3 * 2 + (1 * 4 + 3 * 6) * 5) + (1 * 5) * (-4)⟩ :=
  C7_unblindSign_honest 7 ⟨1, 1, 2⟩ (fun _ => 3)
    ⟨5, 3, 1 * 4 + 3 * 6, ⟨0, 0, 0, 0⟩, 4, 1 * 4 + 3 * 6⟩
    ⟨3, 3 * 2 + (1 * 4 + 3 * 6) * 5, 0, 0⟩ ⟨2, 5, 1 * 2, 1 * 5, 1 * 5⟩ 6 2 5
    (by decide) (by decide) (by decide) (by decide) (by decide) (by decide) (by decide)

/-- C8: share-verification soundness.  For every pair of coefficient lists
(any threshold, in particular degree-t polynomials with t+1 coefficients) and
every index i, verifyShare accepts the honest share
(evalPolynomial F i, evalPolynomial G i) against the honest commitments
produced by generateCommitments. -/
theorem C8_verifyShare_sound (p : ℕ) (params : TIACParams p)
    (F_coeffs G_coeffs : List (ZMod p)) (i : ℕ) :
    verifyShare params (evalPolynomial F_coeffs ((i : ℕ) : ZMod p))
      (evalPolynomial G_coeffs ((i : ℕ) : ZMod p))
      (generateCommitments params F_coeffs G_coeffs) i = true := by
  unfold verifyShare generateCommitments
  simp only [commitPowProduct_map_mul, beq_self_eq_true, Bool.and_self]

/-- C9: contrary to the claim, aggregateSign performs no minimum-share-count
check and has no InsufficientShares error path: on a single partial signature
(fewer than the threshold t = 2 of the scenario) it silently returns the
aggregate built from that one share (here with the fallback Lagrange
coefficient 1). -/
theorem C9_aggregateSign_no_count_check :
    [((0 : ℤ), (⟨2, 3⟩ : UnblindSignature 7))].length < 2 ∧
    aggregateSign [((0 : ℤ), (⟨2, 3⟩ : UnblindSignature 7))] =
      (⟨2, 3⟩ : AggregateSignature 7) := by
  constructor
  · decide
  · rfl

/-- C4: contrary to the claim, compute_verification_keys multiplies the
commitment powers only for j < threshold (every sibling DKG subcommand uses
threshold + 1 coefficients), so on honest commitments of length threshold + 1
the top coefficient is dropped and vk1 differs from g2^sgk1.  Concrete slip:
threshold 1, one qualified trustee with F = G = [0, 1], my_index 1: the code
returns vk1 = 0 while g2^sgk1 has dlog 1; with the sibling commands
poly_size = threshold + 1 the same data would give the matching key. -/
theorem C4_verification_keys_drop_top_coefficient :
    (compute_verification_keys 1 1
        [generateCommitments (⟨1, 1, 1⟩ : TIACParams 7) [0, 1] [0, 1]]).1 ≠
      (⟨1, 1, 1⟩ : TIACParams 7).g2 *
        (compute_signing_key [(evalPolynomial ([0, 1] : List (ZMod 7)) 1,
          evalPolynomial ([0, 1] : List (ZMod 7)) 1)]).1 ∧
    (compute_verification_keys 2 1
        [generateCommitments (⟨1, 1, 1⟩ : TIACParams 7) [0, 1] [0, 1]]).1 =
      (⟨1, 1, 1⟩ : TIACParams 7).g2 *
        (compute_signing_key [(evalPolynomial ([0, 1] : List (ZMod 7)) 1,
          evalPolynomial ([0, 1] : List (ZMod 7)) 1)]).1 := by
  constructor
  · decide
  · decide

/-- C1 counterexample: the issuance round-trip does NOT succeed for every
honest run with 1 <= t <= n.  At p = 11 with t = 2 of n = 5 EAs and admin IDs
(0, 3) — whose shifted set (1, 4) has no entry in the Lagrange table, so both
coefficients fall back to 1 — the honest pipeline (centralized keygen with
vPoly = [0, 1], wPoly = [0, 0], honest prepare, blindSign, unblindSign,
aggregateSign, proveCredential and the attached KoR) produces a credential
whose presentation KoR verifies but whose pairing check is false. -/
theorem C1_counterexample :
    honestIssuanceRun (⟨1, 1, 2⟩ : TIACParams 11) (fun _ => 1) (fun l => l.sum)
      [0, 1] [0, 0] 5 3 1 2 4 5 6 0 1 7 8 9 [0, 3] 0 = .ok (false, true) := by
  decide

/-- C1 amended: the issuance round-trip holds for every honest end-to-end run
whose (sorted) admin ID list is either a singleton or one of the thirteen
index sets covered by the hard-coded Lagrange table (shifted IDs among
1..5), with polynomials of matching length (t coefficients for t partial
signatures, as the pipelines keygen samples them), p prime at least 5, and
admin IDs below the EA count: the pairing check e(h2, k) = e(s2, g2) and the
presentation KoR check both return true, for arbitrary generators, hash
functions and random scalars. -/
theorem C1_issuance_roundtrip_amended (p : ℕ) (pp : p.Prime) (hp : 5 ≤ p)
    (params : TIACParams p) (hashG1 : ZMod p → ZMod p)
    (hashZr : List (ZMod p) → ZMod p) (vPoly wPoly : List (ZMod p)) (ne : ℕ)
    (did oi o r1 r2 r3 r r_prime rho1 rho2 rho3 : ZMod p)
    (adminIds : List ℕ) (voterId : ℤ)
    (hcov : adminIds ∈ coveredAdminLists ∨ adminIds.length = 1)
    (hlenV : vPoly.length = adminIds.length)
    (hlenW : wPoly.length = adminIds.length)
    (hlt : ∀ a ∈ adminIds, a < ne) :
    honestIssuanceRun params hashG1 hashZr vPoly wPoly ne did oi o r1 r2 r3
      r r_prime rho1 rho2 rho3 adminIds voterId = .ok (true, true) := by
  haveI : Fact p.Prime := ⟨pp⟩
  have h2 : (2 : ZMod p) ≠ 0 := by
    have := small_natCast_ne_zero p pp hp 2 (by norm_num) (by norm_num)
    exact_mod_cast this
  have h3 : (3 : ZMod p) ≠ 0 := by
    have := small_natCast_ne_zero p pp hp 3 (by norm_num) (by norm_num)
    exact_mod_cast this
  have h4 : (4 : ZMod p) ≠ 0 := by
    have := small_natCast_ne_zero p pp hp 4 (by norm_num) (by norm_num)
    exact_mod_cast this
  have h6 : (6 : ZMod p) ≠ 0 := by
    rw [show (6 : ZMod p) = 2 * 3 by norm_num]
    exact mul_ne_zero h2 h3
  have h8 : (8 : ZMod p) ≠ 0 := by
    rw [show (8 : ZMod p) = 2 * 4 by norm_num]
    exact mul_ne_zero h2 h4
  rcases hcov with hmem | hone
  · simp only [coveredAdminLists, List.mem_cons, List.not_mem_nil, or_false] at hmem
    rcases hmem with rfl | rfl | rfl | rfl | rfl | rfl | rfl | rfl | rfl | rfl | rfl | rfl | rfl
    · obtain ⟨v0, v1, rfl⟩ := List.length_eq_two.mp (by simpa using hlenV)
      obtain ⟨w0, w1, rfl⟩ := List.length_eq_two.mp (by simpa using hlenW)
      unfold honestIssuanceRun
      dsimp only
      rw [runPartials_ok params hashG1 hashZr _ _ ne did oi o r1 r2 r3 voterId _ hlt]
      dsimp only
      refine congrArg Except.ok ?_
      rw [Prod.mk.injEq]
      refine ⟨?_, checkKoRVerify_attach_ok params hashZr _ _ _ did _ rho1 rho2 rho3 _ rfl rfl⟩
      rw [show ∀ (q : ProveCredentialOutput p) (kor : KnowledgeOfRepProof p),
          pairingCheck params (attachKoR q kor) = pairingCheck params q from fun _ _ => rfl]
      unfold pairingCheck
      rw [beq_iff_eq]
      dsimp only [proveCredential, aggregateSign, keygen, List.map_cons, List.map_nil,
        List.foldl_cons, List.foldl_nil, List.headD_cons]
      norm_num
      obtain ⟨t0, t1⟩ := tf_12 p
      rw [t0, t1]
      dsimp only [evalPolynomial, List.foldl_cons, List.foldl_nil]
      ring
    · obtain ⟨v0, v1, rfl⟩ := List.length_eq_two.mp (by simpa using hlenV)
      obtain ⟨w0, w1, rfl⟩ := List.length_eq_two.mp (by simpa using hlenW)
      unfold honestIssuanceRun
      dsimp only
      rw [runPartials_ok params hashG1 hashZr _ _ ne did oi o r1 r2 r3 voterId _ hlt]
      dsimp only
      refine congrArg Except.ok ?_
      rw [Prod.mk.injEq]
      refine ⟨?_, checkKoRVerify_attach_ok params hashZr _ _ _ did _ rho1 rho2 rho3 _ rfl rfl⟩
      rw [show ∀ (q : ProveCredentialOutput p) (kor : KnowledgeOfRepProof p),
          pairingCheck params (attachKoR q kor) = pairingCheck params q from fun _ _ => rfl]
      unfold pairingCheck
      rw [beq_iff_eq]
      dsimp only [proveCredential, aggregateSign, keygen, List.map_cons, List.map_nil,
        List.foldl_cons, List.foldl_nil, List.headD_cons]
      norm_num
      obtain ⟨t0, t1⟩ := tf_13 p pp hp
      have l0 : computeLagrangeCoefficient p [0, 2] 0 = 3 * (2 : ZMod p)⁻¹ := by
        field_simp
        linear_combination t0
      have l1 : computeLagrangeCoefficient p [0, 2] 1 = -1 * (2 : ZMod p)⁻¹ := by
        field_simp
        linear_combination t1
      rw [l0, l1]
      dsimp only [evalPolynomial, List.foldl_cons, List.foldl_nil]
      field_simp
      ring
    · obtain ⟨v0, v1, rfl⟩ := List.length_eq_two.mp (by simpa using hlenV)
      obtain ⟨w0, w1, rfl⟩ := List.length_eq_two.mp (by simpa using hlenW)
      unfold honestIssuanceRun
      dsimp only
      rw [runPartials_ok params hashG1 hashZr _ _ ne did oi o r1 r2 r3 voterId _ hlt]
      dsimp only
      refine congrArg Except.ok ?_
      rw [Prod.mk.injEq]
      refine ⟨?_, checkKoRVerify_attach_ok params hashZr _ _ _ did _ rho1 rho2 rho3 _ rfl rfl⟩
      rw [show ∀ (q : ProveCredentialOutput p) (kor : KnowledgeOfRepProof p),
          pairingCheck params (attachKoR q kor) = pairingCheck params q from fun _ _ => rfl]
      unfold pairingCheck
      rw [beq_iff_eq]
      dsimp only [proveCredential, aggregateSign, keygen, List.map_cons, List.map_nil,
        List.foldl_cons, List.foldl_nil, List.headD_cons]
      norm_num
      obtain ⟨t0, t1⟩ := tf_23 p
      rw [t0, t1]
      dsimp only [evalPolynomial, List.foldl_cons, List.foldl_nil]
      ring
    · obtain ⟨v0, v1, v2, rfl⟩ := List.length_eq_three.mp (by simpa using hlenV)
      obtain ⟨w0, w1, w2, rfl⟩ := List.length_eq_three.mp (by simpa using hlenW)
      unfold honestIssuanceRun
      dsimp only
      rw [runPartials_ok params hashG1 hashZr _ _ ne did oi o r1 r2 r3 voterId _ hlt]
      dsimp only
      refine congrArg Except.ok ?_
      rw [Prod.mk.injEq]
      refine ⟨?_, checkKoRVerify_attach_ok params hashZr _ _ _ did _ rho1 rho2 rho3 _ rfl rfl⟩
      rw [show ∀ (q : ProveCredentialOutput p) (kor : KnowledgeOfRepProof p),
          pairingCheck params (attachKoR q kor) = pairingCheck params q from fun _ _ => rfl]
      unfold pairingCheck
      rw [beq_iff_eq]
      dsimp only [proveCredential, aggregateSign, keygen, List.map_cons, List.map_nil,
        List.foldl_cons, List.foldl_nil, List.headD_cons]
      norm_num
      obtain ⟨t0, t1, t2⟩ := tf_123 p
      rw [t0, t1, t2]
      dsimp only [evalPolynomial, List.foldl_cons, List.foldl_nil]
      ring
    · obtain ⟨v0, v1, v2, rfl⟩ := List.length_eq_three.mp (by simpa using hlenV)
      obtain ⟨w0, w1, w2, rfl⟩ := List.length_eq_three.mp (by simpa using hlenW)
      unfold honestIssuanceRun
      dsimp only
      rw [runPartials_ok params hashG1 hashZr _ _ ne did oi o r1 r2 r3 voterId _ hlt]
      dsimp only
      refine congrArg Except.ok ?_
      rw [Prod.mk.injEq]
      refine ⟨?_, checkKoRVerify_attach_ok params hashZr _ _ _ did _ rho1 rho2 rho3 _ rfl rfl⟩
      rw [show ∀ (q : ProveCredentialOutput p) (kor : KnowledgeOfRepProof p),
          pairingCheck params (attachKoR q kor) = pairingCheck params q from fun _ _ => rfl]
      unfold pairingCheck
      rw [beq_iff_eq]
      dsimp only [proveCredential, aggregateSign, keygen, List.map_cons, List.map_nil,
        List.foldl_cons, List.foldl_nil, List.headD_cons]
      norm_num
      obtain ⟨t0, t1, t2⟩ := tf_124 p pp hp
      have l0 : computeLagrangeCoefficient p [0, 1, 3] 0 = 8 * (3 : ZMod p)⁻¹ := by
        field_simp
        linear_combination t0
      have l2 : computeLagrangeCoefficient p [0, 1, 3] 2 = (3 : ZMod p)⁻¹ := by
        field_simp
        linear_combination t2
      rw [l0, t1, l2]
      dsimp only [evalPolynomial, List.foldl_cons, List.foldl_nil]
      field_simp
      ring
    · obtain ⟨v0, v1, v2, rfl⟩ := List.length_eq_three.mp (by simpa using hlenV)
      obtain ⟨w0, w1, w2, rfl⟩ := List.length_eq_three.mp (by simpa using hlenW)
      unfold honestIssuanceRun
      dsimp only
      rw [runPartials_ok params hashG1 hashZr _ _ ne did oi o r1 r2 r3 voterId _ hlt]
      dsimp only
      refine congrArg Except.ok ?_
      rw [Prod.mk.injEq]
      refine ⟨?_, checkKoRVerify_attach_ok params hashZr _ _ _ did _ rho1 rho2 rho3 _ rfl rfl⟩
      rw [show ∀ (q : ProveCredentialOutput p) (kor : KnowledgeOfRepProof p),
          pairingCheck params (attachKoR q kor) = pairingCheck params q from fun _ _ => rfl]
      unfold pairingCheck
      rw [beq_iff_eq]
      dsimp only [proveCredential, aggregateSign, keygen, List.map_cons, List.map_nil,
        List.foldl_cons, List.foldl_nil, List.headD_cons]
      norm_num
      obtain ⟨t0, t1, t2⟩ := tf_125 p pp hp
      have l0 : computeLagrangeCoefficient p [0, 1, 4] 0 = 5 * (2 : ZMod p)⁻¹ := by
        field_simp
        linear_combination t0
      have l1 : computeLagrangeCoefficient p [0, 1, 4] 1 = -5 * (3 : ZMod p)⁻¹ := by
        field_simp
        linear_combination t1
      have l2 : computeLagrangeCoefficient p [0, 1, 4] 2 = (6 : ZMod p)⁻¹ := by
        field_simp
        linear_combination t2
      rw [l0, l1, l2]
      dsimp only [evalPolynomial, List.foldl_cons, List.foldl_nil]
      field_simp
      ring
    · obtain ⟨v0, v1, v2, rfl⟩ := List.length_eq_three.mp (by simpa using hlenV)
      obtain ⟨w0, w1, w2, rfl⟩ := List.length_eq_three.mp (by simpa using hlenW)
      unfold honestIssuanceRun
      dsimp only
      rw [runPartials_ok params hashG1 hashZr _ _ ne did oi o r1 r2 r3 voterId _ hlt]
      dsimp only
      refine congrArg Except.ok ?_
      rw [Prod.mk.injEq]
      refine ⟨?_, checkKoRVerify_attach_ok params hashZr _ _ _ did _ rho1 rho2 rho3 _ rfl rfl⟩
      rw [show ∀ (q : ProveCredentialOutput p) (kor : KnowledgeOfRepProof p),
          pairingCheck params (attachKoR q kor) = pairingCheck params q from fun _ _ => rfl]
      unfold pairingCheck
      rw [beq_iff_eq]
      dsimp only [proveCredential, aggregateSign, keygen, List.map_cons, List.map_nil,
        List.foldl_cons, List.foldl_nil, List.headD_cons]
      norm_num
      obtain ⟨t0, t1, t2⟩ := tf_134 p
      rw [t0, t1, t2]
      dsimp only [evalPolynomial, List.foldl_cons, List.foldl_nil]
      ring
    · obtain ⟨v0, v1, v2, rfl⟩ := List.length_eq_three.mp (by simpa using hlenV)
      obtain ⟨w0, w1, w2, rfl⟩ := List.length_eq_three.mp (by simpa using hlenW)
      unfold honestIssuanceRun
      dsimp only
      rw [runPartials_ok params hashG1 hashZr _ _ ne did oi o r1 r2 r3 voterId _ hlt]
      dsimp only
      refine congrArg Except.ok ?_
      rw [Prod.mk.injEq]
      refine ⟨?_, checkKoRVerify_attach_ok params hashZr _ _ _ did _ rho1 rho2 rho3 _ rfl rfl⟩
      rw [show ∀ (q : ProveCredentialOutput p) (kor : KnowledgeOfRepProof p),
          pairingCheck params (attachKoR q kor) = pairingCheck params q from fun _ _ => rfl]
      unfold pairingCheck
      rw [beq_iff_eq]
      dsimp only [proveCredential, aggregateSign, keygen, List.map_cons, List.map_nil,
        List.foldl_cons, List.foldl_nil, List.headD_cons]
      norm_num
      obtain ⟨t0, t1, t2⟩ := tf_135 p pp hp
      have l0 : computeLagrangeCoefficient p [0, 2, 4] 0 = 15 * (8 : ZMod p)⁻¹ := by
        field_simp
        linear_combination t0
      have l1 : computeLagrangeCoefficient p [0, 2, 4] 1 = -5 * (4 : ZMod p)⁻¹ := by
        field_simp
        linear_combination t1
      have l2 : computeLagrangeCoefficient p [0, 2, 4] 2 = 3 * (8 : ZMod p)⁻¹ := by
        field_simp
        linear_combination t2
      rw [l0, l1, l2]
      dsimp only [evalPolynomial, List.foldl_cons, List.foldl_nil]
      field_simp
      ring
    · obtain ⟨v0, v1, v2, rfl⟩ := List.length_eq_three.mp (by simpa using hlenV)
      obtain ⟨w0, w1, w2, rfl⟩ := List.length_eq_three.mp (by simpa using hlenW)
      unfold honestIssuanceRun
      dsimp only
      rw [runPartials_ok params hashG1 hashZr _ _ ne did oi o r1 r2 r3 voterId _ hlt]
      dsimp only
      refine congrArg Except.ok ?_
      rw [Prod.mk.injEq]
      refine ⟨?_, checkKoRVerify_attach_ok params hashZr _ _ _ did _ rho1 rho2 rho3 _ rfl rfl⟩
      rw [show ∀ (q : ProveCredentialOutput p) (kor : KnowledgeOfRepProof p),
          pairingCheck params (attachKoR q kor) = pairingCheck params q from fun _ _ => rfl]
      unfold pairingCheck
      rw [beq_iff_eq]
      dsimp only [proveCredential, aggregateSign, keygen, List.map_cons, List.map_nil,
        List.foldl_cons, List.foldl_nil, List.headD_cons]
      norm_num
      obtain ⟨t0, t1, t2⟩ := tf_145 p pp hp
      have l0 : computeLagrangeCoefficient p [0, 3, 4] 0 = 5 * (3 : ZMod p)⁻¹ := by
        field_simp
        linear_combination t0
      have l1 : computeLagrangeCoefficient p [0, 3, 4] 1 = -5 * (3 : ZMod p)⁻¹ := by
        field_simp
        linear_combination t1
      rw [l0, l1, t2]
      dsimp only [evalPolynomial, List.foldl_cons, List.foldl_nil]
      field_simp
      ring
    · obtain ⟨v0, v1, v2, rfl⟩ := List.length_eq_three.mp (by simpa using hlenV)
      obtain ⟨w0, w1, w2, rfl⟩ := List.length_eq_three.mp (by simpa using hlenW)
      unfold honestIssuanceRun
      dsimp only
      rw [runPartials_ok params hashG1 hashZr _ _ ne did oi o r1 r2 r3 voterId _ hlt]
      dsimp only
      refine congrArg Except.ok ?_
      rw [Prod.mk.injEq]
      refine ⟨?_, checkKoRVerify_attach_ok params hashZr _ _ _ did _ rho1 rho2 rho3 _ rfl rfl⟩
      rw [show ∀ (q : ProveCredentialOutput p) (kor : KnowledgeOfRepProof p),
          pairingCheck params (attachKoR q kor) = pairingCheck params q from fun _ _ => rfl]
      unfold pairingCheck
      rw [beq_iff_eq]
      dsimp only [proveCredential, aggregateSign, keygen, List.map_cons, List.map_nil,
        List.foldl_cons, List.foldl_nil, List.headD_cons]
      norm_num
      obtain ⟨t0, t1, t2⟩ := tf_234 p
      rw [t0, t1, t2]
      dsimp only [evalPolynomial, List.foldl_cons, List.foldl_nil]
      ring
    · obtain ⟨v0, v1, v2, rfl⟩ := List.length_eq_three.mp (by simpa using hlenV)
      obtain ⟨w0, w1, w2, rfl⟩ := List.length_eq_three.mp (by simpa using hlenW)
      unfold honestIssuanceRun
      dsimp only
      rw [runPartials_ok params hashG1 hashZr _ _ ne did oi o r1 r2 r3 voterId _ hlt]
      dsimp only
      refine congrArg Except.ok ?_
      rw [Prod.mk.injEq]
      refine ⟨?_, checkKoRVerify_attach_ok params hashZr _ _ _ did _ rho1 rho2 rho3 _ rfl rfl⟩
      rw [show ∀ (q : ProveCredentialOutput p) (kor : KnowledgeOfRepProof p),
          pairingCheck params (attachKoR q kor) = pairingCheck params q from fun _ _ => rfl]
      unfold pairingCheck
      rw [beq_iff_eq]
      dsimp only [proveCredential, aggregateSign, keygen, List.map_cons, List.map_nil,
        List.foldl_cons, List.foldl_nil, List.headD_cons]
      norm_num
      obtain ⟨t0, t1, t2⟩ := tf_235 p
      rw [t0, t1, t2]
      dsimp only [evalPolynomial, List.foldl_cons, List.foldl_nil]
      ring
    · obtain ⟨v0, v1, v2, rfl⟩ := List.length_eq_three.mp (by simpa using hlenV)
      obtain ⟨w0, w1, w2, rfl⟩ := List.length_eq_three.mp (by simpa using hlenW)
      unfold honestIssuanceRun
      dsimp only
      rw [runPartials_ok params hashG1 hashZr _ _ ne did oi o r1 r2 r3 voterId _ hlt]
      dsimp only
      refine congrArg Except.ok ?_
      rw [Prod.mk.injEq]
      refine ⟨?_, checkKoRVerify_attach_ok params hashZr _ _ _ did _ rho1 rho2 rho3 _ rfl rfl⟩
      rw [show ∀ (q : ProveCredentialOutput p) (kor : KnowledgeOfRepProof p),
          pairingCheck params (attachKoR q kor) = pairingCheck params q from fun _ _ => rfl]
      unfold pairingCheck
      rw [beq_iff_eq]
      dsimp only [proveCredential, aggregateSign, keygen, List.map_cons, List.map_nil,
        List.foldl_cons, List.foldl_nil, List.headD_cons]
      norm_num
      obtain ⟨t0, t1, t2⟩ := tf_245 p pp hp
      have l0 : computeLagrangeCoefficient p [1, 3, 4] 0 = 10 * (3 : ZMod p)⁻¹ := by
        field_simp
        linear_combination t0
      have l2 : computeLagrangeCoefficient p [1, 3, 4] 2 = 8 * (3 : ZMod p)⁻¹ := by
        field_simp
        linear_combination t2
      rw [l0, t1, l2]
      dsimp only [evalPolynomial, List.foldl_cons, List.foldl_nil]
      field_simp
      ring
    · obtain ⟨v0, v1, v2, rfl⟩ := List.length_eq_three.mp (by simpa using hlenV)
      obtain ⟨w0, w1, w2, rfl⟩ := List.length_eq_three.mp (by simpa using hlenW)
      unfold honestIssuanceRun
      dsimp only
      rw [runPartials_ok params hashG1 hashZr _ _ ne did oi o r1 r2 r3 voterId _ hlt]
      dsimp only
      refine congrArg Except.ok ?_
      rw [Prod.mk.injEq]
      refine ⟨?_, checkKoRVerify_attach_ok params hashZr _ _ _ did _ rho1 rho2 rho3 _ rfl rfl⟩
      rw [show ∀ (q : ProveCredentialOutput p) (kor : KnowledgeOfRepProof p),
          pairingCheck params (attachKoR q kor) = pairingCheck params q from fun _ _ => rfl]
      unfold pairingCheck
      rw [beq_iff_eq]
      dsimp only [proveCredential, aggregateSign, keygen, List.map_cons, List.map_nil,
        List.foldl_cons, List.foldl_nil, List.headD_cons]
      norm_num
      obtain ⟨t0, t1, t2⟩ := tf_345 p
      rw [t0, t1, t2]
      dsimp only [evalPolynomial, List.foldl_cons, List.foldl_nil]
      ring
  · obtain ⟨a, rfl⟩ := List.length_eq_one.mp hone
    obtain ⟨c, rfl⟩ := List.length_eq_one.mp (by simpa using hlenV)
    obtain ⟨cw, rfl⟩ := List.length_eq_one.mp (by simpa using hlenW)
    unfold honestIssuanceRun
    dsimp only
    rw [runPartials_ok params hashG1 hashZr _ _ ne did oi o r1 r2 r3 voterId _ hlt]
    dsimp only
    refine congrArg Except.ok ?_
    rw [Prod.mk.injEq]
    refine ⟨?_, checkKoRVerify_attach_ok params hashZr _ _ _ did _ rho1 rho2 rho3 _ rfl rfl⟩
    rw [show ∀ (q : ProveCredentialOutput p) (kor : KnowledgeOfRepProof p),
        pairingCheck params (attachKoR q kor) = pairingCheck params q from fun _ _ => rfl]
    unfold pairingCheck
    rw [beq_iff_eq]
    dsimp only [proveCredential, aggregateSign, keygen, List.map_cons, List.map_nil,
      List.foldl_cons, List.foldl_nil, List.headD_cons]
    rw [show computeLagrangeCoefficient p [(a : ℤ)] 0 = 1 from rfl]
    dsimp only [evalPolynomial, List.foldl_cons, List.foldl_nil]
    ring

/-- C1 amended witness: the amended round-trip theorem applied at p = 7 with
concrete parameters, polynomials, randomness and the covered admin ID set
(0, 1). -/
theorem C1_amended_witness :
    honestIssuanceRun (⟨1, 1, 2⟩ : TIACParams 7) (fun _ => 3) (fun l => l.sum)
      [1, 2] [3, 4] 5 2 1 2 3 4 5 6 2 1 2 3 [0, 1] 9 = .ok (true, true) :=
  C1_issuance_roundtrip_amended 7 (by norm_num) (by norm_num) ⟨1, 1, 2⟩
    (fun _ => 3) (fun l => l.sum) [1, 2] [3, 4] 5 2 1 2 3 4 5 6 2 1 2 3 [0, 1] 9
    (Or.inl (by decide)) (by decide) (by decide) (by decide)

/-- C2 counterexample: computeLagrangeCoefficient does NOT return the
closed-form Lagrange coefficient for every admin ID list: for p = 7 and the
admin IDs (0, 3) (shifted points 1 and 4, distinct mod 7, which have no
explicit table entry) the code falls through to the coefficient 1, while the
closed form gives (-4) * (1 - 4)⁻¹ = 6 mod 7. -/
theorem C2_counterexample :
    computeLagrangeCoefficient 7 [0, 3] 0 ≠
      specLagrangeCoefficient 7 ([0, 3].map (· + 1)) 0 := by
  have h1 : computeLagrangeCoefficient 7 [0, 3] 0 = 1 := by decide
  have hm : ([0, 3] : List ℤ).map (· + 1) = [1, 4] := by decide
  have h2 : specLagrangeCoefficient 7 [1, 4] 0 = 6 := by
    have hinv : (((1 - 4 : ℤ) : ZMod 7))⁻¹ = 2 :=
      ZMod.inv_eq_of_mul_eq_one 7 _ 2 (by decide)
    show (1 : ZMod 7) * (((-(4 : ℤ) : ℤ) : ZMod 7) * (((1 - 4 : ℤ) : ZMod 7))⁻¹) = 6
    rw [hinv]
    decide
  rw [h1, hm, h2]
  decide

/-- C2 amended: computeLagrangeCoefficient returns the closed-form Lagrange
coefficient at x = 0 over the shifted points exactly on the inputs the
hard-coded table covers explicitly: whenever the shifted ID list is one of
the thirteen tabulated 2- or 3-element subsets (in sorted order) and p is a
prime of size at least 5 (so that the points are distinct mod p and the
table divisions are exact), the table entry equals the formula; outside the
table the function returns the fallback 1 instead (see the counterexample). -/
theorem C2_table_matches_formula_on_covered (p : ℕ) (pp : p.Prime) (hp : 5 ≤ p)
    (S : List ℤ) (hS : S ∈ coveredShiftedSets) (idx : ℕ) (hidx : idx < S.length) :
    computeLagrangeCoefficient p (S.map (· - 1)) idx =
      specLagrangeCoefficient p S idx := by
  simp only [coveredShiftedSets, List.mem_cons, List.not_mem_nil, or_false] at hS
  rcases hS with rfl | rfl | rfl | rfl | rfl | rfl | rfl | rfl | rfl | rfl | rfl | rfl | rfl
  · norm_num at hidx
    rw [show (List.map (· - 1) [1, 2] : List ℤ) = [0, 1] from by decide]
    interval_cases idx
    · exact (tableEq_12 p pp hp).1
    · exact (tableEq_12 p pp hp).2
  · norm_num at hidx
    rw [show (List.map (· - 1) [1, 3] : List ℤ) = [0, 2] from by decide]
    interval_cases idx
    · exact (tableEq_13 p pp hp).1
    · exact (tableEq_13 p pp hp).2
  · norm_num at hidx
    rw [show (List.map (· - 1) [2, 3] : List ℤ) = [1, 2] from by decide]
    interval_cases idx
    · exact (tableEq_23 p pp hp).1
    · exact (tableEq_23 p pp hp).2
  · norm_num at hidx
    rw [show (List.map (· - 1) [1, 2, 3] : List ℤ) = [0, 1, 2] from by decide]
    interval_cases idx
    · exact (tableEq_123 p pp hp).1
    · exact (tableEq_123 p pp hp).2.1
    · exact (tableEq_123 p pp hp).2.2
  · norm_num at hidx
    rw [show (List.map (· - 1) [1, 2, 4] : List ℤ) = [0, 1, 3] from by decide]
    interval_cases idx
    · exact (tableEq_124 p pp hp).1
    · exact (tableEq_124 p pp hp).2.1
    · exact (tableEq_124 p pp hp).2.2
  · norm_num at hidx
    rw [show (List.map (· - 1) [1, 2, 5] : List ℤ) = [0, 1, 4] from by decide]
    interval_cases idx
    · exact (tableEq_125 p pp hp).1
    · exact (tableEq_125 p pp hp).2.1
    · exact (tableEq_125 p pp hp).2.2
  · norm_num at hidx
    rw [show (List.map (· - 1) [1, 3, 4] : List ℤ) = [0, 2, 3] from by decide]
    interval_cases idx
    · exact (tableEq_134 p pp hp).1
    · exact (tableEq_134 p pp hp).2.1
    · exact (tableEq_134 p pp hp).2.2
  · norm_num at hidx
    rw [show (List.map (· - 1) [1, 3, 5] : List ℤ) = [0, 2, 4] from by decide]
    interval_cases idx
    · exact (tableEq_135 p pp hp).1
    · exact (tableEq_135 p pp hp).2.1
    · exact (tableEq_135 p pp hp).2.2
  · norm_num at hidx
    rw [show (List.map (· - 1) [1, 4, 5] : List ℤ) = [0, 3, 4] from by decide]
    interval_cases idx
    · exact (tableEq_145 p pp hp).1
    · exact (tableEq_145 p pp hp).2.1
    · exact (tableEq_145 p pp hp).2.2
  · norm_num at hidx
    rw [show (List.map (· - 1) [2, 3, 4] : List ℤ) = [1, 2, 3] from by decide]
    interval_cases idx
    · exact (tableEq_234 p pp hp).1
    · exact (tableEq_234 p pp hp).2.1
    · exact (tableEq_234 p pp hp).2.2
  · norm_num at hidx
    rw [show (List.map (· - 1) [2, 3, 5] : List ℤ) = [1, 2, 4] from by decide]
    interval_cases idx
    · exact (tableEq_235 p pp hp).1
    · exact (tableEq_235 p pp hp).2.1
    · exact (tableEq_235 p pp hp).2.2
  · norm_num at hidx
    rw [show (List.map (· - 1) [2, 4, 5] : List ℤ) = [1, 3, 4] from by decide]
    interval_cases idx
    · exact (tableEq_245 p pp hp).1
    · exact (tableEq_245 p pp hp).2.1
    · exact (tableEq_245 p pp hp).2.2
  · norm_num at hidx
    rw [show (List.map (· - 1) [3, 4, 5] : List ℤ) = [2, 3, 4] from by decide]
    interval_cases idx
    · exact (tableEq_345 p pp hp).1
    · exact (tableEq_345 p pp hp).2.1
    · exact (tableEq_345 p pp hp).2.2

/-- C2 amended witness: the amended theorem applied at p = 7 on the covered
shifted subset (1, 2) at index 0. -/
theorem C2_amended_witness :
    computeLagrangeCoefficient 7 (List.map (· - 1) [1, 2]) 0 =
      specLagrangeCoefficient 7 [1, 2] 0 :=
  C2_table_matches_formula_on_covered 7 (by norm_num) (by norm_num) [1, 2]
    (by decide) 0 (by decide)

/-- C5: the table branch of computeLagrangeCoefficient (the size-2/size-3 code
path holding the hard-coded coefficients, their p mod 3 and p mod 6 case
splits, the setFraction helper and the element_set1 fallback) and the
closed-form Lagrange formula at x = 0 are not equal as functions on the
2- and 3-element shifted ID subsets it handles: at p = 11 and the shifted
subset (1, 4) (admin IDs 0 and 3), whose points are distinct mod p so the
closed form is well defined, the branch returns the fallback 1 while the
formula gives (-4) * (1 - 4)⁻¹ = 5. -/
theorem C5_table_branch_diverges_from_formula :
    ∃ pr : ℕ, Nat.Prime pr ∧ ∃ (S : List ℤ) (idx : ℕ),
      (S.length = 2 ∨ S.length = 3) ∧ S.Nodup ∧ idx < S.length ∧
      (∀ a ∈ S, ∀ b ∈ S, a ≠ b → ((a - b : ℤ) : ZMod pr) ≠ 0) ∧
      computeLagrangeCoefficient pr (S.map (· - 1)) idx ≠
        specLagrangeCoefficient pr S idx := by
  refine ⟨11, by norm_num, [1, 4], 0, by decide, by decide, by decide, by decide, ?_⟩
  have h1 : computeLagrangeCoefficient 11 ([1, 4].map (· - 1)) 0 = 1 := by decide
  have h2 : specLagrangeCoefficient 11 [1, 4] 0 = 5 := by
    have hinv : (((1 - 4 : ℤ) : ZMod 11))⁻¹ = 7 :=
      ZMod.inv_eq_of_mul_eq_one 11 _ 7 (by decide)
    show (1 : ZMod 11) * (((-(4 : ℤ) : ℤ) : ZMod 11) * (((1 - 4 : ℤ) : ZMod 11))⁻¹) = 5
    rw [hinv]
    decide
  rw [h1, h2]
  decide

/-- C3 counterexample: the presentation KoR challenge is NOT computed over the
re-randomized element h2 = h^r_prime.  In the composition of
main_parallel_backup.cpp the caller passes the aggregate h into
generateKoRProof, and at a concrete input (p = 11, aggregate h = 2,
r_prime = 2, so h2 = 4 differs from h, with the sum hash) the challenge the
code produces differs from the value the claim mandates,
H(g1, g2, h2, com, com_prime-over-h2, k, k_prime). -/
theorem C3_counterexample :
    (generateKoRProof (⟨1, 1, 2⟩ : TIACParams 11) (fun l => l.sum)
        (⟨2, 3⟩ : AggregateSignature 11).h
        (proveCredential ⟨1, 1, 2⟩ ⟨2, 3⟩ ⟨4, 5, 6⟩ 7 1 3 2).k
        (proveCredential ⟨1, 1, 2⟩ ⟨2, 3⟩ ⟨4, 5, 6⟩ 7 1 3 2).r
        9 4 5 7 1 6 0 8).c ≠
      (fun (l : List (ZMod 11)) => l.sum)
        [1, 1, (proveCredential (⟨1, 1, 2⟩ : TIACParams 11) ⟨2, 3⟩ ⟨4, 5, 6⟩ 7 1 3 2).sigmaRnd.h,
         9, 1 * 8 + (proveCredential (⟨1, 1, 2⟩ : TIACParams 11) ⟨2, 3⟩ ⟨4, 5, 6⟩ 7 1 3 2).sigmaRnd.h * 0,
         (proveCredential (⟨1, 1, 2⟩ : TIACParams 11) ⟨2, 3⟩ ⟨4, 5, 6⟩ 7 1 3 2).k,
         1 * 6 + 4 + 5 * 0] := by
  decide

/-- C3 amended: the presentation KoR challenge is computed over the G1 element
the caller hands in, which in the pipeline is the pre-randomization aggregate
h (not h2 = h^r_prime): the prover challenge is
c = H(g1, g2, h, com, com_prime, k, k_prime) with com_prime = g1^rho3 h^rho2,
and the verifier, given that same h, recomputes c_prime over it and accepts
iff c_prime = c — for every hash function, independently of the sigmaRnd
component of the credential, whenever k = alpha2 * beta2^did * g2^r and
com = g1^o h^did. -/
theorem C3_presentation_kor_challenge_over_aggregate_h (p : ℕ)
    (params : TIACParams p) (hashZr : List (ZMod p) → ZMod p)
    (mvk : MasterVerKey p) (h did o r rv rho1 rho2 rho3 : ZMod p)
    (sigmaRnd : ProveCredentialSigmaRnd p) (k com : ZMod p)
    (hk : k = mvk.alpha2 + mvk.beta2 * did + params.g2 * r)
    (hcom : com = params.g1 * o + h * did) :
    (generateKoRProof params hashZr h k r com mvk.alpha2 mvk.beta2 did o
        rho1 rho2 rho3).c =
      hashZr [params.g1, params.g2, h, com, params.g1 * rho3 + h * rho2, k,
        params.g2 * rho1 + mvk.alpha2 + mvk.beta2 * rho2] ∧
    checkKoRVerify params hashZr
      (attachKoR ⟨sigmaRnd, k, rv, 0, 0, 0, 0⟩
        (generateKoRProof params hashZr h k r com mvk.alpha2 mvk.beta2 did o
          rho1 rho2 rho3)) mvk com h = true := by
  constructor
  · rfl
  · unfold checkKoRVerify attachKoR generateKoRProof
    have e1 : params.g2 * (rho1 - hashZr [params.g1, params.g2, h, com,
          params.g1 * rho3 + h * rho2, k,
          params.g2 * rho1 + mvk.alpha2 + mvk.beta2 * rho2] * r) +
        mvk.alpha2 * (1 - hashZr [params.g1, params.g2, h, com,
          params.g1 * rho3 + h * rho2, k,
          params.g2 * rho1 + mvk.alpha2 + mvk.beta2 * rho2]) +
        k * hashZr [params.g1, params.g2, h, com,
          params.g1 * rho3 + h * rho2, k,
          params.g2 * rho1 + mvk.alpha2 + mvk.beta2 * rho2] +
        mvk.beta2 * (rho2 - hashZr [params.g1, params.g2, h, com,
          params.g1 * rho3 + h * rho2, k,
          params.g2 * rho1 + mvk.alpha2 + mvk.beta2 * rho2] * did) =
        params.g2 * rho1 + mvk.alpha2 + mvk.beta2 * rho2 := by
      rw [hk]; ring
    have e2 : params.g1 * (rho3 - hashZr [params.g1, params.g2, h, com,
          params.g1 * rho3 + h * rho2, k,
          params.g2 * rho1 + mvk.alpha2 + mvk.beta2 * rho2] * o) +
        h * (rho2 - hashZr [params.g1, params.g2, h, com,
          params.g1 * rho3 + h * rho2, k,
          params.g2 * rho1 + mvk.alpha2 + mvk.beta2 * rho2] * did) +
        com * hashZr [params.g1, params.g2, h, com,
          params.g1 * rho3 + h * rho2, k,
          params.g2 * rho1 + mvk.alpha2 + mvk.beta2 * rho2] =
        params.g1 * rho3 + h * rho2 := by
      rw [hcom]; ring
    simp only [e1, e2, beq_self_eq_true]

/-- C3 amended witness: the amended theorem applied at p = 11 with concrete
honest presentation data and the sum hash. -/
theorem C3_amended_witness :
    checkKoRVerify (⟨1, 1, 2⟩ : TIACParams 11) (fun l => l.sum)
      (attachKoR ⟨⟨9, 10⟩, 4 + 5 * 7 + 1 * 3, 3, 0, 0, 0, 0⟩
        (generateKoRProof ⟨1, 1, 2⟩ (fun l => l.sum) 2 (4 + 5 * 7 + 1 * 3) 3
          (1 * 1 + 2 * 7) 4 5 7 1 6 0 8)) ⟨4, 5, 6⟩ (1 * 1 + 2 * 7) 2 = true :=
  (C3_presentation_kor_challenge_over_aggregate_h 11 ⟨1, 1, 2⟩ (fun l => l.sum)
    ⟨4, 5, 6⟩ 2 7 1 3 3 6 0 8 ⟨9, 10⟩ (4 + 5 * 7 + 1 * 3) (1 * 1 + 2 * 7)
    (by decide) (by decide)).2

end TIAC
